import Mathlib

/-!
# Verification of the Metrics-Timeline Markdown table parser

A shallow embedding of `parser.py` (tokenizer, Markdown-fragment tree,
recursive-descent table parser, date parsing, `Entry` construction), with
theorems settling the specification's claims about it.

Strings are modelled as `List Char`.  The Python generator pipeline is
modelled as staged total functions: `tokenize` produces the whole token
list (or the first fatal error), and the parser functions consume it.
Python exceptions (`ValueError`, `AssertionError`, `NameError`) are
modelled with `Except Err`.
-/

set_option maxRecDepth 10000

/-- Fatal error conditions of the tokenizer and parser.  Each constructor
corresponds to one `raise`/`assert`/crash site in `parser.py`. -/
inductive Err where
  /-- "expected '|' at end of table row line" -/
  | rowEndInCell : Err
  /-- "backslash at end of a line is not supported" -/
  | badEscape : Err
  /-- `datetime.strptime` raised `ValueError` for this (post-`~`) text -/
  | dateFormat : List Char → Err
  /-- "non-whitespace literal node in link list" -/
  | nonWsLiteralInLinks : Err
  /-- "unexpected node type in link list" (raised for a code node) -/
  | badNodeInLinks : Err
  /-- "cannot convert MarkdownCode/MarkdownLink to text" -/
  | toTextError : Err
  /-- `assert column_names == EXPECTED_COLUMN_NAMES` failed -/
  | headerAssert : Err
  /-- `assert all(re.match(...))` on the separator row failed -/
  | separatorAssert : Err
  /-- `assert token.type == TokenType.TABLE_ROW_BEGIN` failed -/
  | rowBeginAssert : Err
  /-- "unexpected token ... in inline code" -/
  | unexpectedTokenInCode : Err
  /-- "unexpected token ... in link label" -/
  | unexpectedTokenInLabel : Err
  /-- "unexpected token ... in link href" -/
  | unexpectedTokenInHref : Err
  /-- `NameError`: `parse_link` references the undefined name
  `MarkdownNodeText` when a bracketed span is not followed by `(` -/
  | nameErrorMarkdownNodeText : Err
  /-- unpacking a row into 7 cells failed (`ValueError` on unpack) -/
  | rowShape : Err
  /-- "unexpected token" at top level -/
  | topLevelUnexpected : Err
  /-- reading past the end of the token stream (`StopIteration`) -/
  | unexpectedEnd : Err
  /-- artificial fuel exhaustion of the embedding (never hit when the
  entry points are given enough fuel) -/
  | outOfFuel : Err
deriving DecidableEq, Repr

/-- `TokenType` from `parser.py`. -/
inductive TokenType where
  | LITERAL : TokenType
  | TABLE_ROW_BEGIN : TokenType
  | TABLE_ROW_END : TokenType
  | TABLE_CELL_END : TokenType
  | BACKTICK : TokenType
  | OPEN_BRACKET : TokenType
  | CLOSE_BRACKET : TokenType
  | OPEN_PAREN : TokenType
  | CLOSE_PAREN : TokenType
  | EOF : TokenType
deriving DecidableEq, Repr

/-- `Token` from `parser.py` (the EOF token's `None` text is `[]`). -/
structure Token where
  type : TokenType
  text : List Char
deriving DecidableEq, Repr

/-- The backtick character (shown as `\x60`). -/
def btkChar : Char := Char.ofNat 96

/-- The tilde character `~`. -/
def tildeChar : Char := Char.ofNat 126

/-- The ASCII punctuation characters of the CommonMark backslash-escape
rule, exactly the string literal at `parser.py` line 126. -/
def punctChars : List Char :=
  ['!', '"', '#', '$', Char.ofNat 37, '&', Char.ofNat 39, '(', ')', '*',
   '+', ',', '-', '.', '/', ':', ';', '<', '=', '>', '?', '@', '[', '\\',
   ']', Char.ofNat 94, '_', Char.ofNat 96, Char.ofNat 123, '|',
   Char.ofNat 125, Char.ofNat 126]

/-- `flush_literals`: the consolidated literal buffer becomes one LITERAL
token when nonempty. -/
def flushTok (buf : List Char) : List Token :=
  if buf = [] then [] else [⟨.LITERAL, buf⟩]

/-- The states of the tokenizer's state machine (the `state_*` local
functions of `tokenize`).  `state_eof` is inlined at its call sites. -/
inductive TState where
  | begin_line : TState
  | literal_line : TState
  | begin_table_cell : TState
  | table_cell : TState
deriving DecidableEq, Repr

/-- The tokenizer state machine.  `buf` is the `literals_buf` consolidation
buffer (kept as the joined character list; it is nonempty as a list of
strings exactly when it is nonempty as a string, for all reachable
configurations).  The final catch-all clause handles both
`begin_table_cell` (whose "otherwise" case ungets the character and enters
`table_cell`) and `table_cell` itself: the two states differ only on
end-of-input and newline, which are matched by earlier clauses. -/
def tokRun : TState → List Char → List Char → Except Err (List Token)
  | .begin_line, buf, [] =>
    -- state_eof: emit EOF (flushing the literal buffer first)
    .ok (flushTok buf ++ [⟨.EOF, []⟩])
  | .begin_line, buf, c :: r =>
    if c = '|' then
      Except.map (fun ts => flushTok buf ++ ⟨.TABLE_ROW_BEGIN, [c]⟩ :: ts)
        (tokRun .begin_table_cell [] r)
    else
      -- unget and run state_literal_line on c
      if c = '\n' then tokRun .begin_line (buf ++ [c]) r
      else tokRun .literal_line (buf ++ [c]) r
  | .literal_line, buf, [] =>
    -- emit LITERAL "" (a no-op on the joined buffer), then state_begin_line
    -- sees EOF and transitions to state_eof
    .ok (flushTok buf ++ [⟨.EOF, []⟩])
  | .literal_line, buf, c :: r =>
    if c = '\n' then tokRun .begin_line (buf ++ [c]) r
    else tokRun .literal_line (buf ++ [c]) r
  | .begin_table_cell, buf, [] =>
    -- emit TABLE_ROW_END "", then state_begin_line sees EOF
    .ok (flushTok buf ++ [⟨.TABLE_ROW_END, []⟩, ⟨.EOF, []⟩])
  | .table_cell, _, [] => .error .rowEndInCell
  | st, buf, c :: r =>
    -- st is begin_table_cell or table_cell here
    if c = '\n' then
      match st with
      | .begin_table_cell =>
        Except.map (fun ts => flushTok buf ++ ⟨.TABLE_ROW_END, [c]⟩ :: ts)
          (tokRun .begin_line [] r)
      | _ => .error .rowEndInCell
    else if c = '|' then
      Except.map (fun ts => flushTok buf ++ ⟨.TABLE_CELL_END, [c]⟩ :: ts)
        (tokRun .begin_table_cell [] r)
    else if c = '\\' then
      match r with
      | [] => .error .badEscape
      | d :: r2 =>
        if d = '\n' then .error .badEscape
        else if punctChars.contains d then tokRun .table_cell (buf ++ [d]) r2
        else tokRun .table_cell (buf ++ [c, d]) r2
    else if c = btkChar then
      Except.map (fun ts => flushTok buf ++ ⟨.BACKTICK, [c]⟩ :: ts)
        (tokRun .table_cell [] r)
    else if c = '[' then
      Except.map (fun ts => flushTok buf ++ ⟨.OPEN_BRACKET, [c]⟩ :: ts)
        (tokRun .table_cell [] r)
    else if c = ']' then
      Except.map (fun ts => flushTok buf ++ ⟨.CLOSE_BRACKET, [c]⟩ :: ts)
        (tokRun .table_cell [] r)
    else if c = '(' then
      Except.map (fun ts => flushTok buf ++ ⟨.OPEN_PAREN, [c]⟩ :: ts)
        (tokRun .table_cell [] r)
    else if c = ')' then
      Except.map (fun ts => flushTok buf ++ ⟨.CLOSE_PAREN, [c]⟩ :: ts)
        (tokRun .table_cell [] r)
    else tokRun .table_cell (buf ++ [c]) r

/-- `tokenize`: run the state machine from `state_begin_line` with an empty
literal buffer. -/
def tokenize (s : List Char) : Except Err (List Token) :=
  tokRun .begin_line [] s

/-! ## The Markdown-fragment tree -/

/-- The Markdown-fragment tree of `parser.py` (`Markdown`, `MarkdownLiteral`,
`MarkdownCode`, `MarkdownLink`).  A Python `Markdown` container with children
`[n1, ..., nk]` is the chain `containerCons n1 (... (containerCons nk
containerNil))`; a link's label (itself a `Markdown` container) is such a
chain. -/
inductive MNode where
  | literal : List Char → MNode
  | code : List Char → MNode
  | link : MNode → List Char → MNode
  | containerNil : MNode
  | containerCons : MNode → MNode → MNode
deriving DecidableEq, Repr

/-- `label.children.append(x)` on a container chain. -/
def MNode.appendChild : MNode → MNode → MNode
  | .containerNil, x => .containerCons x .containerNil
  | .containerCons a rest, x => .containerCons a (rest.appendChild x)
  | other, _ => other

/-- `backslash_escape(s, chars)` from `parser.py`: prefix a backslash to
every backslash and every character of `chars`. -/
def backslash_escape : List Char → List Char → List Char
  | [], _ => []
  | c :: s, chars =>
    (if c = '\\' || chars.contains c then ['\\', c] else [c]) ++
      backslash_escape s chars

/-- `to_markdown` of the fragment tree: literals escape only backslash,
code spans additionally escape backticks, link labels escape brackets and
hrefs escape parens. -/
def MNode.to_markdown : MNode → List Char
  | .literal t => backslash_escape t []
  | .code t => btkChar :: (backslash_escape t [btkChar] ++ [btkChar])
  | .link label href =>
    '[' :: (backslash_escape label.to_markdown ['[', ']'] ++
      (']' :: '(' :: (backslash_escape href ['(', ')'] ++ [')'])))
  | .containerNil => []
  | .containerCons n rest => n.to_markdown ++ rest.to_markdown

/-- `to_text` of the fragment tree: partial — raises for code spans and
links. -/
def MNode.to_text : MNode → Except Err (List Char)
  | .literal t => .ok t
  | .code _ => .error .toTextError
  | .link _ _ => .error .toTextError
  | .containerNil => .ok []
  | .containerCons n rest => do
    let a ← n.to_text
    let b ← rest.to_text
    .ok (a ++ b)

/-- A extracted `MarkdownLink` node: its label container and href. -/
structure MLink where
  label : MNode
  href : List Char
deriving DecidableEq, Repr

/-- Python `str` whitespace for `strip`/`split` (ASCII). -/
def isPyWS (c : Char) : Bool :=
  c = ' ' || c = '\t' || c = '\n' || c = '\r' ||
    c = Char.ofNat 11 || c = Char.ofNat 12

/-- Python `s.strip()`. -/
def pyStrip (s : List Char) : List Char :=
  ((s.dropWhile isPyWS).reverse.dropWhile isPyWS).reverse

/-- Python `s.split()` (split on whitespace runs, no empty fields). -/
def pySplitAux : List Char → List Char → List (List Char)
  | [], acc => if acc = [] then [] else [acc.reverse]
  | c :: rest, acc =>
    if isPyWS c then
      if acc = [] then pySplitAux rest []
      else acc.reverse :: pySplitAux rest []
    else pySplitAux rest (c :: acc)

def pySplit (s : List Char) : List (List Char) := pySplitAux s []

/-- `extract_links`: collect the link nodes of a fragment tree, requiring
every other node to be a whitespace-only literal (a non-whitespace literal
or a code node is a fatal error). -/
def extract_links : MNode → Except Err (List MLink)
  | .containerNil => .ok []
  | .containerCons n rest => do
    let a ← extract_links n
    let b ← extract_links rest
    .ok (a ++ b)
  | .link label href => .ok [⟨label, href⟩]
  | .literal t => if pyStrip t = [] then .ok [] else .error .nonWsLiteralInLinks
  | .code _ => .error .badNodeInLinks

/-! ## Date parsing (`parse_datetime` and the `strptime` formats)

`datetime.strptime` is modelled after CPython's `_strptime`: `%Y` matches
exactly four digits, `%m`/`%d`/`%H`/`%M`/`%S` match one or two digits with
the regex classes of `_strptime.TimeRE`, a space in the format matches one
or more whitespace characters, the whole input must be consumed, and the
resulting field values must form a valid calendar date. -/

/-- A Python `datetime.date` or `datetime.datetime` value. -/
inductive PyDateTime where
  | date : Nat → Nat → Nat → PyDateTime
  | datetime : Nat → Nat → Nat → Nat → Nat → Nat → PyDateTime
deriving DecidableEq, Repr

def digitVal (c : Char) : Nat := c.toNat - 48

/-- `%Y`: exactly four digits. -/
def pYear : List Char → Option (Nat × List Char)
  | a :: b :: c :: d :: rest =>
    if a.isDigit && b.isDigit && c.isDigit && d.isDigit then
      some (1000 * digitVal a + 100 * digitVal b + 10 * digitVal c +
        digitVal d, rest)
    else none
  | _ => none

/-- A one-or-two digit field: two digits are taken when `valid2` holds of
their value, else one digit is taken when `valid1` holds of its value
(mirroring the ordered regex alternations of `_strptime.TimeRE`). -/
def pNum2 (valid2 valid1 : Nat → Bool) : List Char → Option (Nat × List Char)
  | a :: b :: rest =>
    if a.isDigit && b.isDigit && valid2 (10 * digitVal a + digitVal b) then
      some (10 * digitVal a + digitVal b, rest)
    else if a.isDigit && valid1 (digitVal a) then some (digitVal a, b :: rest)
    else none
  | [a] => if a.isDigit && valid1 (digitVal a) then some (digitVal a, []) else none
  | [] => none

/-- `%m`: `1[0-2]|0[1-9]|[1-9]`. -/
def pMonth : List Char → Option (Nat × List Char) :=
  pNum2 (fun v => 1 ≤ v && v ≤ 12) (fun v => 1 ≤ v)

/-- `%d`: `3[01]|[12]\d|0[1-9]|[1-9]`. -/
def pDay : List Char → Option (Nat × List Char) :=
  pNum2 (fun v => 1 ≤ v && v ≤ 31) (fun v => 1 ≤ v)

/-- `%H`: `2[0-3]|[0-1]\d|\d`. -/
def pHour : List Char → Option (Nat × List Char) :=
  pNum2 (fun v => v ≤ 23) (fun _ => true)

/-- `%M` and `%S`: `[0-5]\d|\d`. -/
def pMinSec : List Char → Option (Nat × List Char) :=
  pNum2 (fun v => v ≤ 59) (fun _ => true)

/-- A literal character of the format string. -/
def pChar (c : Char) : List Char → Option (List Char)
  | d :: rest => if d = c then some rest else none
  | [] => none

/-- A space in the format: `\s+` (one or more whitespace characters). -/
def pSpaces : List Char → Option (List Char)
  | c :: rest => if isPyWS c then some (rest.dropWhile isPyWS) else none
  | [] => none

def isLeapYear (y : Nat) : Bool :=
  y % 4 = 0 && (y % 100 != 0 || y % 400 = 0)

def daysInMonth (y m : Nat) : Nat :=
  if m = 2 then (if isLeapYear y then 29 else 28)
  else if m = 4 || m = 6 || m = 9 || m = 11 then 30
  else 31

/-- The `datetime` constructor's validation of the parsed fields
(`MINYEAR = 1`; the day must exist in the month). -/
def validYMD (y m d : Nat) : Bool := 1 ≤ y && d ≤ daysInMonth y m

/-- `datetime.strptime(s, "%Y-%m-%d").date()`. -/
def strptimeDateOnly (s : List Char) : Option PyDateTime := do
  let (y, s1) ← pYear s
  let s2 ← pChar '-' s1
  let (m, s3) ← pMonth s2
  let s4 ← pChar '-' s3
  let (d, s5) ← pDay s4
  if s5 = [] && validYMD y m d then some (.date y m d) else none

/-- `datetime.strptime(s, "%Y-%m-%d %H:%M")`. -/
def strptimeHM (s : List Char) : Option PyDateTime := do
  let (y, s1) ← pYear s
  let s2 ← pChar '-' s1
  let (m, s3) ← pMonth s2
  let s4 ← pChar '-' s3
  let (d, s5) ← pDay s4
  let s6 ← pSpaces s5
  let (hh, s7) ← pHour s6
  let s8 ← pChar ':' s7
  let (mi, s9) ← pMinSec s8
  if s9 = [] && validYMD y m d then some (.datetime y m d hh mi 0) else none

/-- `datetime.strptime(s, "%Y-%m-%d %H:%M:%S")`. -/
def strptimeFull (s : List Char) : Option PyDateTime := do
  let (y, s1) ← pYear s
  let s2 ← pChar '-' s1
  let (m, s3) ← pMonth s2
  let s4 ← pChar '-' s3
  let (d, s5) ← pDay s4
  let s6 ← pSpaces s5
  let (hh, s7) ← pHour s6
  let s8 ← pChar ':' s7
  let (mi, s9) ← pMinSec s8
  let s10 ← pChar ':' s9
  let (ss, s11) ← pMinSec s10
  if s11 = [] && validYMD y m d then some (.datetime y m d hh mi ss) else none

/-- `parse_datetime` from `parser.py`: `""` and `"ongoing"` give no date; a
leading `~` marks the date approximate and is stripped; then the three
formats are tried in order, the first success winning; if all fail the last
`strptime` raises. -/
def parse_datetime (s : List Char) : Except Err (Option PyDateTime × Bool) :=
  if s = [] || s = "ongoing".toList then .ok (none, false)
  else
    let p : Bool × List Char :=
      match s with
      | '~' :: r => (true, r)
      | _ => (false, s)
    match strptimeFull p.2 with
    | some d => .ok (some d, p.1)
    | none =>
      match strptimeHM p.2 with
      | some d => .ok (some d, p.1)
      | none =>
        match strptimeDateOnly p.2 with
        | some d => .ok (some d, p.1)
        | none => .error (.dateFormat p.2)

/-! ## Entry construction -/

/-- `EXPECTED_COLUMN_NAMES` from `parser.py`. -/
def EXPECTED_COLUMN_NAMES : List (List Char) :=
  ["start date".toList, "end date".toList, "places".toList,
   "protocols".toList, "description".toList, "links".toList, "?".toList]

/-- The separator-cell validation `re.match(r':?-{3,}:?', s)` of
`parse_table` (line 283).  `re.match` anchors only at the start of the
string, and the trailing `:?` can always match the empty string, so the
pattern matches exactly when the string begins with an optional colon
followed by at least three dashes. -/
def sepMatch (s : List Char) : Bool :=
  if s.head? = some ':' then
    3 ≤ (s.tail.takeWhile (fun c => c = '-')).length
  else
    3 ≤ (s.takeWhile (fun c => c = '-')).length

/-- `Entry` from `parser.py`: one parsed timeline row. -/
structure Entry where
  start_date : Option PyDateTime
  start_date_is_approx : Bool
  end_date : Option PyDateTime
  end_date_is_approx : Bool
  is_ongoing : Bool
  places : Finset (List Char)
  protocols : Finset (List Char)
  description : MNode
  links : List MLink
  is_unknown : Bool
deriving DecidableEq

/-- `Entry.__init__`: build an `Entry` from a parsed row of 7 cells,
evaluating the field initializers in source order (so the first failing
one determines the error). -/
def Entry.ofRow (row : List MNode) : Except Err Entry :=
  match row with
  | [start_date, end_date, places, protocols, description, links, is_unknown] => do
    let sdText ← start_date.to_text
    let sd ← parse_datetime sdText
    let edText ← end_date.to_text
    let ed ← parse_datetime edText
    -- line 242 calls end_date.to_text() a second time; to_text is pure, so
    -- the recomputation returns the same value and is not re-bound here
    let plText ← places.to_text
    let prText ← protocols.to_text
    let lks ← extract_links links
    let unkText ← is_unknown.to_text
    .ok { start_date := sd.1, start_date_is_approx := sd.2,
          end_date := ed.1, end_date_is_approx := ed.2,
          is_ongoing := decide (edText = "ongoing".toList),
          places := (pySplit plText).toFinset,
          protocols := (pySplit prText).toFinset,
          description := description, links := lks,
          is_unknown := decide (unkText ≠ []) }
  | _ => .error .rowShape

/-! ## The recursive-descent parser

The parser functions consume a `List Token`.  One token of pushback is
modelled by returning the unconsumed suffix.  `parse_code` and
`parse_href` are structurally recursive on the token list; the functions
that continue after a sub-parse take a fuel argument (the entry points
supply more fuel than any input can consume, see `parseDoc`). -/

/-- `parse_code`: collect literal/bracket/paren text until a closing
backtick. -/
def parse_code : List Token → List Char → Except Err (MNode × List Token)
  | [], _ => .error .unexpectedEnd
  | tk :: rest, acc =>
    match tk.type with
    | .BACKTICK => .ok (.code acc, rest)
    | .LITERAL => parse_code rest (acc ++ tk.text)
    | .OPEN_BRACKET => parse_code rest (acc ++ tk.text)
    | .CLOSE_BRACKET => parse_code rest (acc ++ tk.text)
    | .OPEN_PAREN => parse_code rest (acc ++ tk.text)
    | .CLOSE_PAREN => parse_code rest (acc ++ tk.text)
    | _ => .error .unexpectedTokenInCode

/-- The href loop of `parse_link`: collect literal/backtick/bracket text
until a closing paren. -/
def parse_href : List Token → List Char → Except Err (List Char × List Token)
  | [], _ => .error .unexpectedEnd
  | tk :: rest, acc =>
    match tk.type with
    | .CLOSE_PAREN => .ok (acc, rest)
    | .LITERAL => parse_href rest (acc ++ tk.text)
    | .BACKTICK => parse_href rest (acc ++ tk.text)
    | .OPEN_BRACKET => parse_href rest (acc ++ tk.text)
    | .CLOSE_BRACKET => parse_href rest (acc ++ tk.text)
    | _ => .error .unexpectedTokenInHref

/-- `parse_link` with its accumulated label container `acc`.  On a second
open bracket the token is pushed back and the label, prefixed with a
literal `[`, is returned as ordinary content.  After the closing bracket,
a non-open-paren next token reaches the `MarkdownNodeText` lines of the
source, which is an unconditional `NameError` (the name is undefined). -/
def parse_link : Nat → MNode → List Token → Except Err (MNode × List Token)
  | 0, _, _ => .error .outOfFuel
  | _ + 1, _, [] => .error .unexpectedEnd
  | f + 1, acc, tk :: rest =>
    match tk.type with
    | .CLOSE_BRACKET =>
      match rest with
      | [] => .error .unexpectedEnd
      | tk2 :: rest2 =>
        if tk2.type = .OPEN_PAREN then do
          let (h, r) ← parse_href rest2 []
          .ok (.link acc h, r)
        else .error .nameErrorMarkdownNodeText
    | .OPEN_BRACKET => .ok (.containerCons (.literal ['[']) acc, tk :: rest)
    | .LITERAL => parse_link f (acc.appendChild (.literal tk.text)) rest
    | .BACKTICK => do
      let (nd, r) ← parse_code rest []
      parse_link f (acc.appendChild nd) r
    | .OPEN_PAREN => parse_link f (acc.appendChild (.literal tk.text)) rest
    | .CLOSE_PAREN => parse_link f (acc.appendChild (.literal tk.text)) rest
    | _ => .error .unexpectedTokenInLabel

/-- `parse_table_cell`: accumulate a Markdown container until a cell-end
token; other unexpected token kinds become their text representation. -/
def parse_table_cell : Nat → List Token → Except Err (MNode × List Token)
  | 0, _ => .error .outOfFuel
  | _ + 1, [] => .error .unexpectedEnd
  | f + 1, tk :: rest =>
    match tk.type with
    | .TABLE_CELL_END => .ok (.containerNil, rest)
    | .LITERAL => do
      let (cs, r) ← parse_table_cell f rest
      .ok (.containerCons (.literal tk.text) cs, r)
    | .BACKTICK => do
      let (nd, r) ← parse_code rest []
      let (cs, r2) ← parse_table_cell f r
      .ok (.containerCons nd cs, r2)
    | .OPEN_BRACKET => do
      let (nd, r) ← parse_link (f + 1) .containerNil rest
      let (cs, r2) ← parse_table_cell f r
      .ok (.containerCons nd cs, r2)
    | _ => do
      let (cs, r) ← parse_table_cell f rest
      .ok (.containerCons (.literal tk.text) cs, r)

/-- `parse_table_row`: parse cells until a row-end token is consumed. -/
def parse_table_row : Nat → List Token → Except Err (List MNode × List Token)
  | 0, _ => .error .outOfFuel
  | _ + 1, [] => .error .unexpectedEnd
  | f + 1, tk :: rest =>
    if tk.type = .TABLE_ROW_END then .ok ([], rest)
    else do
      let (cell, r) ← parse_table_cell (f + 1) (tk :: rest)
      let (cells, r2) ← parse_table_row f r
      .ok (cell :: cells, r2)

/-- `cell.to_text()` mapped over a row of cells. -/
def cellsToText : List MNode → Except Err (List (List Char))
  | [] => .ok []
  | c :: cs => do
    let t ← c.to_text
    let ts ← cellsToText cs
    .ok (t :: ts)

/-- The entry loop of `parse_table`: parse rows into `Entry` values until
the next token is not a row-begin (which is pushed back). -/
def parse_entries : Nat → List Token → Except Err (List Entry × List Token)
  | 0, _ => .error .outOfFuel
  | _ + 1, [] => .error .unexpectedEnd
  | f + 1, tk :: rest =>
    if tk.type = .TABLE_ROW_BEGIN then do
      let (row, r) ← parse_table_row (f + 1) rest
      let e ← Entry.ofRow row
      let (es, r2) ← parse_entries f r
      .ok (e :: es, r2)
    else .ok ([], tk :: rest)

/-- `parse_table`: header row (validated against the fixed schema), then a
row-begin token and the separator row (each cell validated by `sepMatch`
after stripping), then the entry rows.  Called after the table's first
row-begin token has been consumed. -/
def parse_table (f : Nat) (ts : List Token) :
    Except Err (List Entry × List Token) := do
  let (headerCells, ts1) ← parse_table_row f ts
  let headerTexts ← cellsToText headerCells
  if headerTexts.map pyStrip = EXPECTED_COLUMN_NAMES then
    match ts1 with
    | [] => .error .unexpectedEnd
    | tk :: ts2 =>
      if tk.type = .TABLE_ROW_BEGIN then do
        let (sepCells, ts3) ← parse_table_row f ts2
        let sepTexts ← cellsToText sepCells
        if (sepTexts.map pyStrip).all (fun sep => sepMatch (pyStrip sep)) then
          parse_entries f ts3
        else .error .separatorAssert
      else .error .rowBeginAssert
  else .error .headerAssert

/-- A top-level item yielded by `parse`: a verbatim text run between
tables, or one table's list of entries. -/
inductive Item where
  | text : List Char → Item
  | table : List Entry → Item
deriving DecidableEq

/-- The top-level loop of `parse`. -/
def parse : Nat → List Token → Except Err (List Item)
  | 0, _ => .error .outOfFuel
  | _ + 1, [] => .error .unexpectedEnd
  | f + 1, tk :: rest =>
    match tk.type with
    | .EOF => .ok []
    | .LITERAL => do
      let items ← parse f rest
      .ok (.text tk.text :: items)
    | .TABLE_ROW_BEGIN => do
      let (es, r) ← parse_table (f + 1) rest
      let items ← parse f r
      .ok (.table es :: items)
    | _ => .error .topLevelUnexpected

/-- The whole pipeline on a document: tokenize, then parse.  One unit of
fuel is consumed at most once per consumed token, so `length + 1` fuel is
never exhausted. -/
def parseDoc (s : List Char) : Except Err (List Item) := do
  let ts ← tokenize s
  parse (ts.length + 1) ts

/-- Parse a single table cell given as bare cell text, by parsing the
one-cell table row `|text|`: the claims about "parsing a table cell"
quantify over this function's results. -/
def parseCellText (s : List Char) : Except Err MNode := do
  let ts ← tokenize ('|' :: (s ++ ['|', '\n']))
  match ts with
  | tk :: rest =>
    if tk.type = .TABLE_ROW_BEGIN then do
      let (cell, _) ← parse_table_cell (rest.length + 1) rest
      .ok cell
    else .error .topLevelUnexpected
  | [] => .error .unexpectedEnd

/-! ## Definitions used by the claim statements -/

/-- `Except` success test. -/
def isOkE {α : Type} (e : Except Err α) : Bool :=
  match e with
  | .ok _ => true
  | .error _ => false

/-- The ANCHORED separator pattern `^:?-{3,}:?$` as written in the spec
(for comparison with the source's `sepMatch`, which is only
start-anchored). -/
def sepFullMatchSpec (s : List Char) : Bool :=
  let t := match s with
    | ':' :: r => r
    | _ => s
  let n := (t.takeWhile (fun c => c = '-')).length
  let rest := t.dropWhile (fun c => c = '-')
  3 ≤ n && (rest = [] || rest = [':'])

/-- The three-format cascade of `parse_datetime` in the order stated by the
spec: `%Y-%m-%d %H:%M:%S`, then `%Y-%m-%d %H:%M`, then `%Y-%m-%d`, first
success winning. -/
def tryFormats (s : List Char) : Option PyDateTime :=
  match strptimeFull s with
  | some d => some d
  | none =>
    match strptimeHM s with
    | some d => some d
    | none => strptimeDateOnly s

/-- The domain of `extract_links` as described by the claim: besides
containers, only link nodes and whitespace-only literals. -/
def linksCellOk : MNode → Bool
  | .containerNil => true
  | .containerCons n rest => linksCellOk n && linksCellOk rest
  | .link _ _ => true
  | .literal t => pyStrip t == []
  | .code _ => false

/-- The link nodes of a fragment tree in tree order. -/
def collectLinks : MNode → List MLink
  | .containerNil => []
  | .containerCons n rest => collectLinks n ++ collectLinks rest
  | .link label href => [⟨label, href⟩]
  | _ => []

/-! ## Concrete inputs named by the claims -/

/-- One-literal table cell. -/
def litCell (s : List Char) : MNode :=
  .containerCons (.literal s) .containerNil

/-- The three-line input of the spec's end-to-end test (claim C6). -/
def specC6Input : List Char :=
  ("| start date | end date | places | protocols | description | links | ? |\n" ++
   "|---|---|---|---|---|---|---|\n" ++
   "| 2020-01-01 | ongoing | US DE | tor | Some event | [ref](http://x) |  |\n").toList

/-- A row whose `?` cell contains only spaces (other cells tight). -/
def rowSpacesUnknown : List MNode :=
  [litCell "2020-01-01".toList, litCell "ongoing".toList,
   litCell "US DE".toList, litCell "tor".toList,
   litCell "Some event".toList, .containerNil, litCell "  ".toList]

/-- A row whose start-date cell keeps its surrounding spaces. -/
def rowPaddedDate : List MNode :=
  [litCell " 2020-01-01 ".toList, litCell "ongoing".toList,
   litCell "US DE".toList, litCell "tor".toList,
   litCell "Some event".toList, .containerNil, .containerNil]

/-- The same row with the start-date cell tight. -/
def rowTightDate : List MNode :=
  [litCell "2020-01-01".toList, litCell "ongoing".toList,
   litCell "US DE".toList, litCell "tor".toList,
   litCell "Some event".toList, .containerNil, .containerNil]

/-- A document with padded header and separator cells but tight data
cells. -/
def docPaddedHeader : List Char :=
  ("| start date | end date | places | protocols | description | links | ? |\n" ++
   "| :--- | --- | --- | --- | --- | --- | --- |\n" ++
   "|2020-01-01|ongoing|US DE|tor|Some event|[ref](http://x)||\n").toList

/-- A document whose separator row's first cell has extra text after the
dashes. -/
def docSepExtraText : List Char :=
  ("| start date | end date | places | protocols | description | links | ? |\n" ++
   "|---x|---|---|---|---|---|---|\n").toList

/-! ## Round-trip infrastructure (claim C1)

The benign character classes for which serialization and re-tokenization
invert each other, and the token stream produced by tokenizing the
serialization of a tree built from them. -/

/-- A character with no special role inside a table cell: not a newline,
cell/row delimiter, escape, backtick, bracket or paren. -/
def isPlainChar (c : Char) : Bool :=
  !(c = '\n' || c = '|' || c = '\\' || c = btkChar ||
    c = '[' || c = ']' || c = '(' || c = ')')

/-- A nonempty all-plain literal text. -/
def plainLit (w : List Char) : Bool :=
  !(w = []) && w.all isPlainChar

/-- Code-span text that re-tokenizes to itself: plain characters or
backticks (which serialize escaped). -/
def goodCodeText (w : List Char) : Bool :=
  w.all (fun c => isPlainChar c || c = btkChar)

/-- Href text that re-tokenizes to itself: plain characters, parens and
backslashes (all of which serialize escaped). -/
def goodHref (h : List Char) : Bool :=
  h.all (fun c => isPlainChar c || c = '(' || c = ')' || c = '\\')

/-- A benign link-label container: plain literals (no two adjacent) and
code spans of plain text.  The flag records whether the previous child was
a literal. -/
def goodLabel : Bool → MNode → Bool
  | _, .containerNil => true
  | prevLit, .containerCons (.literal w) rest =>
    !prevLit && plainLit w && goodLabel true rest
  | _, .containerCons (.code w) rest => w.all isPlainChar && goodLabel false rest
  | _, _ => false

/-- A benign cell container: plain literals (no two adjacent), code spans
of `goodCodeText`, and links with benign labels and hrefs. -/
def goodCell : Bool → MNode → Bool
  | _, .containerNil => true
  | prevLit, .containerCons (.literal w) rest =>
    !prevLit && plainLit w && goodCell true rest
  | _, .containerCons (.code w) rest => goodCodeText w && goodCell false rest
  | _, .containerCons (.link label href) rest =>
    goodLabel false label && goodHref href && goodCell false rest
  | _, _ => false

/-- The literal buffer still pending after tokenizing the serialization of
a container chain, starting from buffer `buf`. -/
def endBuf : List Char → MNode → List Char
  | buf, .containerNil => buf
  | buf, .containerCons (.literal w) rest => endBuf (buf ++ w) rest
  | _, .containerCons _ rest => endBuf [] rest
  | buf, _ => buf

/-- The tokens fully emitted while tokenizing the serialization of a
container chain starting from buffer `buf` (the trailing literal buffer,
`endBuf`, is not yet flushed). -/
def emitToks : List Char → MNode → List Token
  | _, .containerNil => []
  | buf, .containerCons (.literal w) rest => emitToks (buf ++ w) rest
  | buf, .containerCons (.code w) rest =>
    flushTok buf ++ ⟨.BACKTICK, [btkChar]⟩ ::
      (flushTok w ++ ⟨.BACKTICK, [btkChar]⟩ :: emitToks [] rest)
  | buf, .containerCons (.link label href) rest =>
    flushTok buf ++ ⟨.OPEN_BRACKET, ['[']⟩ ::
      ((emitToks [] label ++ flushTok (endBuf [] label)) ++
        ⟨.CLOSE_BRACKET, [']']⟩ :: ⟨.OPEN_PAREN, ['(']⟩ ::
          (flushTok href ++ ⟨.CLOSE_PAREN, [')']⟩ :: emitToks [] rest))
  | _, _ => []

/-- Concatenation of container chains. -/
def chainAppend : MNode → MNode → MNode
  | .containerNil, l => l
  | .containerCons a rest, l => .containerCons a (chainAppend rest l)
  | other, _ => other

/-- A proper container chain (ends in `containerNil`). -/
def isChain : MNode → Bool
  | .containerNil => true
  | .containerCons _ rest => isChain rest
  | _ => false

/-- Fuel weight of a container chain: the number of child nodes, counting
a link's label children as well. -/
def nodeWeight : MNode → Nat
  | .containerNil => 0
  | .containerCons (.link label _) rest => 1 + nodeWeight label + nodeWeight rest
  | .containerCons _ rest => 1 + nodeWeight rest
  | _ => 0

/-! ## Theorems -/

theorem except_map_map {α β γ : Type} (f : β → γ) (g : α → β)
    (x : Except Err α) :
    Except.map f (Except.map g x) = Except.map (fun a => f (g a)) x := by
  cases x <;> rfl

theorem except_map_nilfun (x : Except Err (List Token)) :
    Except.map (fun ts => [] ++ ts) x = x := by
  cases x <;> rfl

/-- Claim C4: when the closing bracket of a link label is not followed by
an open paren, `parse_link` reaches the `MarkdownNodeText(...)` lines,
whose name is undefined: parsing the cell `[a]b` crashes with a
`NameError` instead of returning the label wrapped in literal brackets. -/
theorem C4_bracketed_text_name_error :
    parseCellText "[a]b".toList = .error .nameErrorMarkdownNodeText := rfl

/-- Claim C6: on the spec's three-line example input the parser raises a
fatal error (from `strptime` on the untrimmed cell text `" 2020-01-01 "`)
instead of producing the expected entry. -/
theorem C6_spec_input_fails :
    parseDoc specC6Input = .error (.dateFormat " 2020-01-01 ".toList) := rfl

/-- Claim C10: `Entry` construction does not trim data-row cell text:
a `?` cell of two spaces yields `is_unknown = true`; a start-date cell
with surrounding spaces is handed to `parse_datetime` untrimmed and is a
fatal error, while the tight cell parses; and a document whose header and
separator cells are padded (but whose data cells are tight) parses fine,
because only header and separator cells are stripped. -/
theorem C10_no_trimming_of_data_cells :
    Except.map Entry.is_unknown (Entry.ofRow rowSpacesUnknown) = .ok true ∧
    Entry.ofRow rowPaddedDate = .error (.dateFormat " 2020-01-01 ".toList) ∧
    Except.map Entry.start_date (Entry.ofRow rowTightDate) =
      .ok (some (.date 2020 1 1)) ∧
    isOkE (parseDoc docPaddedHeader) = true :=
  ⟨rfl, rfl, rfl, rfl⟩

/-- Claim C2 (counterexample): a separator cell `---x` with extra text
after the dashes is accepted — the whole two-row document parses
successfully to an empty table — because `re.match` does not anchor the
pattern at the end; the claim's anchored pattern `^:?-{3,}:?$` rejects
`---x`. -/
theorem C2_counterexample :
    parseDoc docSepExtraText = .ok [.table []] ∧
    sepFullMatchSpec "---x".toList = false := ⟨rfl, rfl⟩


theorem takeWhile_dash_len_iff (n : Nat) :
    ∀ l : List Char,
      (n ≤ (l.takeWhile (fun c => c = '-')).length ↔
        ∃ rest, l = List.replicate n '-' ++ rest) := by
  induction n with
  | zero => intro l; simp
  | succ k ih =>
    intro l
    cases l with
    | nil => simp [List.replicate_succ]
    | cons c r =>
      by_cases hc : c = '-'
      · subst hc
        simp only [List.takeWhile_cons, decide_eq_true_eq, if_pos rfl,
          List.length_cons, Nat.succ_le_succ_iff, List.replicate_succ,
          List.cons_append, List.cons.injEq, true_and]
        simpa using ih r
      · simp [List.takeWhile_cons, hc, List.replicate_succ]

/-- Claim C2 (amended): the separator-cell validation (the source's
unanchored `re.match(r':?-{3,}:?', ...)`) accepts exactly the strings that
BEGIN with an optional colon followed by three or more dashes.  So a cell
with fewer than three leading dashes is rejected, but — contrary to the
claim — extra text after the dash run is accepted (see
`C2_counterexample`). -/
theorem C2_separator_prefix_match (s : List Char) :
    sepMatch s = true ↔
      ∃ rest, s = '-' :: '-' :: '-' :: rest ∨
        s = ':' :: '-' :: '-' :: '-' :: rest := by
  cases s with
  | nil => simp [sepMatch]
  | cons c r =>
    by_cases hc : c = ':'
    · subst hc
      simp only [sepMatch, List.head?_cons, Option.some.injEq, if_pos rfl,
        if_true, List.tail_cons, decide_eq_true_eq]
      rw [show (3 : Nat) ≤ (r.takeWhile (fun c => c = '-')).length ↔
        ∃ rest, r = List.replicate 3 '-' ++ rest from takeWhile_dash_len_iff 3 r]
      constructor
      · rintro ⟨rest, hrest⟩
        exact ⟨rest, Or.inr (by simp [hrest, List.replicate]
          )⟩
      · rintro ⟨rest, h | h⟩
        · exact absurd (congrArg List.head? h) (by simp)
        · exact ⟨rest, by
            have := congrArg List.tail h
            simpa [List.replicate] using this⟩
    · have hhead : ((c :: r).head? = some ':') = False := by
        simp [hc]
      simp only [sepMatch, hhead, if_false, decide_eq_true_eq]
      rw [show (3 : Nat) ≤ ((c :: r).takeWhile (fun c => c = '-')).length ↔
        ∃ rest, c :: r = List.replicate 3 '-' ++ rest from
          takeWhile_dash_len_iff 3 (c :: r)]
      constructor
      · rintro ⟨rest, hrest⟩
        exact ⟨rest, Or.inl (by simpa [List.replicate] using hrest)⟩
      · rintro ⟨rest, h | h⟩
        · exact ⟨rest, by simpa [List.replicate] using h⟩
        · exact absurd (congrArg List.head? h) (by simp [hc])

theorem C2_witness : sepMatch ":---x".toList = true :=
  (C2_separator_prefix_match ":---x".toList).mpr ⟨['x'], Or.inr rfl⟩

/-- Claim C3 (counterexample): an escaped non-punctuation character (here
`a`) does NOT make tokenization fail; the backslash and the character are
both kept as literal text. -/
theorem C3_counterexample :
    tokenize ['|', '\\', 'a', '|', '\n'] =
      .ok [⟨.TABLE_ROW_BEGIN, ['|']⟩, ⟨.LITERAL, ['\\', 'a']⟩,
           ⟨.TABLE_CELL_END, ['|']⟩, ⟨.TABLE_ROW_END, ['\n']⟩,
           ⟨.EOF, []⟩] := rfl

/-- Claim C3 (amended): inside a cell, a backslash followed by an ASCII
punctuation character emits only that character as literal text (so `\|`
is literal `|` content and does not end the cell); a backslash at end of
input or before a newline is a fatal error; and a backslash before any
OTHER character emits the backslash AND that character as literal text
(CommonMark's rule), rather than failing. -/
theorem C3_escape_behavior :
    (∀ d : Char, d ≠ '\n' →
      tokenize ['|', '\\', d, '|', '\n'] =
        .ok [⟨.TABLE_ROW_BEGIN, ['|']⟩,
             ⟨.LITERAL, if punctChars.contains d then [d] else ['\\', d]⟩,
             ⟨.TABLE_CELL_END, ['|']⟩, ⟨.TABLE_ROW_END, ['\n']⟩,
             ⟨.EOF, []⟩]) ∧
    tokenize ['|', '\\', '\n', '|', '\n'] = .error .badEscape ∧
    tokenize ['|', '\\'] = .error .badEscape := by
  refine ⟨?_, rfl, rfl⟩
  intro d hd
  by_cases hp : d ∈ punctChars
  · simp [tokenize, tokRun, flushTok, Except.map, hd, hp]
  · simp [tokenize, tokRun, flushTok, Except.map, hd, hp]

theorem C3_witness :
    tokenize ['|', '\\', '|', '|', '\n'] =
      .ok [⟨.TABLE_ROW_BEGIN, ['|']⟩, ⟨.LITERAL, ['|']⟩,
           ⟨.TABLE_CELL_END, ['|']⟩, ⟨.TABLE_ROW_END, ['\n']⟩,
           ⟨.EOF, []⟩] := by
  have h := C3_escape_behavior.1 '|' (by decide)
  simpa using h

/-- Claim C5: `parse_datetime` maps `""` and `"ongoing"` to (no date,
not approximate); a leading `~` sets the approximate flag and is stripped
before the format cascade; the remaining text is tried against
`%Y-%m-%d %H:%M:%S`, then `%Y-%m-%d %H:%M`, then `%Y-%m-%d`, first
success winning, and a text matching none of them is a fatal error;
`"~2023-05-01"` gives the date 2023-05-01 with the flag set and
`"2023-05-01 10:00:00"` gives a datetime value, not a date. -/
theorem C5_parse_datetime_spec :
    parse_datetime [] = .ok (none, false) ∧
    parse_datetime "ongoing".toList = .ok (none, false) ∧
    (∀ r : List Char,
      parse_datetime ('~' :: r) =
        match tryFormats r with
        | some d => .ok (some d, true)
        | none => .error (.dateFormat r)) ∧
    (∀ s : List Char, s ≠ [] → s ≠ "ongoing".toList →
      s.head? ≠ some '~' →
      parse_datetime s =
        match tryFormats s with
        | some d => .ok (some d, false)
        | none => .error (.dateFormat s)) ∧
    (∀ s d, strptimeFull s = some d → tryFormats s = some d) ∧
    (∀ s d, strptimeFull s = none → strptimeHM s = some d →
      tryFormats s = some d) ∧
    (∀ s, strptimeFull s = none → strptimeHM s = none →
      tryFormats s = strptimeDateOnly s) ∧
    parse_datetime "~2023-05-01".toList = .ok (some (.date 2023 5 1), true) ∧
    parse_datetime "2023-05-01 10:00:00".toList =
      .ok (some (.datetime 2023 5 1 10 0 0), false) := by
  refine ⟨rfl, rfl, ?_, ?_, ?_, ?_, ?_, rfl, rfl⟩
  · intro r
    simp only [parse_datetime, tryFormats]
    rw [if_neg (by simp [String.toList])]
    cases h1 : strptimeFull r <;> cases h2 : strptimeHM r <;>
      cases h3 : strptimeDateOnly r <;> simp [h1, h2, h3]
  · intro s h1 h2 h3
    cases s with
    | nil => exact absurd rfl h1
    | cons c r =>
      have hc : c ≠ '~' := by
        intro h
        exact h3 (by simp [h])
      have hne : ¬(c :: r = [] ∨ c :: r = "ongoing".toList) := by
        rintro (h | h)
        · exact h1 h
        · exact h2 h
      simp only [parse_datetime, tryFormats]
      rw [if_neg (by simpa using hne)]
      have hmatch : (match c :: r with
          | '~' :: r => ((true : Bool), r)
          | x => ((false : Bool), c :: r)) = ((false : Bool), c :: r) := by
        split
        · rename_i heq
          cases heq
          exact absurd rfl hc
        · rfl
      rw [hmatch]
      cases h4 : strptimeFull (c :: r) <;> cases h5 : strptimeHM (c :: r) <;>
        cases h6 : strptimeDateOnly (c :: r) <;> simp [h4, h5, h6]
  · intro s d h
    simp [tryFormats, h]
  · intro s d h1 h2
    simp [tryFormats, h1, h2]
  · intro s h1 h2
    simp [tryFormats, h1, h2]

theorem C5_witness :
    parse_datetime "2023-05-01".toList = .ok (some (.date 2023 5 1), false) := by
  have h := C5_parse_datetime_spec.2.2.2.1 "2023-05-01".toList (by decide)
    (by decide) (by decide)
  simpa using h

/-- Claim C7: whenever the header row's trimmed cell texts differ from the
fixed 7-name schema, `parse_table` fails with the header assertion before
constructing any `Entry`, so the parse produces no entries for the
table. -/
theorem C7_header_mismatch_fatal
    (f : Nat) (ts ts1 : List Token) (cells : List MNode)
    (texts : List (List Char))
    (hrow : parse_table_row f ts = .ok (cells, ts1))
    (htext : cellsToText cells = .ok texts)
    (hne : texts.map pyStrip ≠ EXPECTED_COLUMN_NAMES) :
    parse_table f ts = .error .headerAssert := by
  simp only [parse_table, hrow]
  simp [Bind.bind, Except.bind, htext, hne]

theorem C7_witness :
    parse_table 99
      [⟨.LITERAL, "start date".toList⟩, ⟨.TABLE_CELL_END, ['|']⟩,
       ⟨.LITERAL, "end date".toList⟩, ⟨.TABLE_CELL_END, ['|']⟩,
       ⟨.LITERAL, "places".toList⟩, ⟨.TABLE_CELL_END, ['|']⟩,
       ⟨.LITERAL, "protocols".toList⟩, ⟨.TABLE_CELL_END, ['|']⟩,
       ⟨.LITERAL, "desc".toList⟩, ⟨.TABLE_CELL_END, ['|']⟩,
       ⟨.LITERAL, "links".toList⟩, ⟨.TABLE_CELL_END, ['|']⟩,
       ⟨.LITERAL, "?".toList⟩, ⟨.TABLE_CELL_END, ['|']⟩,
       ⟨.TABLE_ROW_END, ['\n']⟩] = .error .headerAssert :=
  C7_header_mismatch_fatal 99 _ []
    [litCell "start date".toList, litCell "end date".toList,
     litCell "places".toList, litCell "protocols".toList,
     litCell "desc".toList, litCell "links".toList, litCell "?".toList]
    ["start date".toList, "end date".toList, "places".toList,
     "protocols".toList, "desc".toList, "links".toList, "?".toList]
    (by rfl) (by rfl) (by decide)

/-- Claim C9: in every successfully constructed `Entry`, `is_ongoing = true`
implies there is no end date and the end date is not approximate: the
`"ongoing"` end-cell text is mapped by `parse_datetime` to `(None, False)`. -/
theorem C9_ongoing_invariant (row : List MNode) (e : Entry)
    (h : Entry.ofRow row = .ok e) (hong : e.is_ongoing = true) :
    e.end_date = none ∧ e.end_date_is_approx = false := by
  match row with
  | [] => simp [Entry.ofRow] at h
  | [a] => simp [Entry.ofRow] at h
  | [a, b] => simp [Entry.ofRow] at h
  | [a, b, c] => simp [Entry.ofRow] at h
  | [a, b, c, d] => simp [Entry.ofRow] at h
  | [a, b, c, d, e'] => simp [Entry.ofRow] at h
  | [a, b, c, d, e', f] => simp [Entry.ofRow] at h
  | a :: b :: c :: d :: e' :: f :: g :: x :: rest => simp [Entry.ofRow] at h
  | [c1, c2, c3, c4, c5, c6, c7] =>
    simp only [Entry.ofRow, Bind.bind, Except.bind] at h
    repeat' (split at h)
    all_goals first
      | exact Except.noConfusion h
      | (cases h
         simp_all only [decide_eq_true_eq, Entry.mk.injEq]
         subst hong
         simp_all [show parse_datetime ['o', 'n', 'g', 'o', 'i', 'n', 'g'] =
           .ok (none, false) from rfl, eq_comm])

theorem C9_witness :
    (let E : Entry :=
      { start_date := some (.date 2020 1 1), start_date_is_approx := false,
        end_date := none, end_date_is_approx := false, is_ongoing := true,
        places := (["US".toList, "DE".toList] : List (List Char)).toFinset,
        protocols := (["tor".toList] : List (List Char)).toFinset,
        description := litCell "Some event".toList, links := [],
        is_unknown := true }
     E.end_date = none ∧ E.end_date_is_approx = false) :=
  C9_ongoing_invariant rowSpacesUnknown _ (by rfl) (by rfl)

/-- Claim C8: `extract_links` succeeds exactly when the links-cell tree
contains, besides containers, only link nodes and whitespace-only
literals, and on success it returns the link nodes in tree order; `Entry`
construction therefore succeeds only under that condition, and the entry's
`links` field is that ordered list. -/
theorem C8_links_cell_policy :
    (∀ node : MNode,
      isOkE (extract_links node) = linksCellOk node ∧
      (linksCellOk node = true →
        extract_links node = .ok (collectLinks node))) ∧
    (∀ (c1 c2 c3 c4 c5 c6 c7 : MNode) (e : Entry),
      Entry.ofRow [c1, c2, c3, c4, c5, c6, c7] = .ok e →
      linksCellOk c6 = true ∧ e.links = collectLinks c6) := by
  have part1 : ∀ node : MNode,
      isOkE (extract_links node) = linksCellOk node ∧
      (linksCellOk node = true →
        extract_links node = .ok (collectLinks node)) := by
    intro node
    induction node with
    | literal t =>
      by_cases h : pyStrip t = [] <;>
        simp [extract_links, linksCellOk, isOkE, collectLinks, h]
    | code t => simp [extract_links, linksCellOk, isOkE]
    | link label href ih =>
      simp [extract_links, linksCellOk, isOkE, collectLinks]
    | containerNil => simp [extract_links, linksCellOk, isOkE, collectLinks]
    | containerCons n rest ihn ihrest =>
      constructor
      · cases h1 : extract_links n with
        | error e1 =>
          have hn := ihn.1
          rw [h1] at hn
          simp only [isOkE] at hn
          simp [extract_links, h1, linksCellOk, isOkE, ← hn, Bind.bind,
            Except.bind]
        | ok a =>
          have hn := ihn.1
          rw [h1] at hn
          cases h2 : extract_links rest with
          | error e2 =>
            have hr := ihrest.1
            rw [h2] at hr
            simp [extract_links, h1, h2, linksCellOk, isOkE, ← hn, ← hr,
              Bind.bind, Except.bind]
          | ok b =>
            have hr := ihrest.1
            rw [h2] at hr
            simp [extract_links, h1, h2, linksCellOk, isOkE, ← hn, ← hr,
              Bind.bind, Except.bind]
      · intro hok
        simp only [linksCellOk, Bool.and_eq_true] at hok
        have e1 := ihn.2 hok.1
        have e2 := ihrest.2 hok.2
        simp [extract_links, e1, e2, collectLinks, Bind.bind, Except.bind]
  refine ⟨part1, ?_⟩
  intro c1 c2 c3 c4 c5 c6 c7 e h
  obtain ⟨hp1, hp2⟩ := part1 c6
  simp only [Entry.ofRow, Bind.bind, Except.bind] at h
  cases h1 : c1.to_text with
  | error e1 => simp [h1] at h
  | ok t1 =>
  simp only [h1] at h
  cases h2 : parse_datetime t1 with
  | error e2 => simp [h2] at h
  | ok sd =>
  simp only [h2] at h
  cases h3 : c2.to_text with
  | error e3 => simp [h3] at h
  | ok t2 =>
  simp only [h3] at h
  cases h4 : parse_datetime t2 with
  | error e4 => simp [h4] at h
  | ok ed =>
  simp only [h4] at h
  cases h5 : c3.to_text with
  | error e5 => simp [h5] at h
  | ok t3 =>
  simp only [h5] at h
  cases h6 : c4.to_text with
  | error e6 => simp [h6] at h
  | ok t4 =>
  simp only [h6] at h
  cases h7 : extract_links c6 with
  | error e7 => simp [h7] at h
  | ok lks =>
  simp only [h7] at h
  cases h8 : c7.to_text with
  | error e8 => simp [h8] at h
  | ok t7 =>
  simp only [h8] at h
  simp only [Except.ok.injEq] at h
  subst h
  rw [h7] at hp1
  simp only [isOkE] at hp1
  refine ⟨hp1.symm, ?_⟩
  have hcol := hp2 hp1.symm
  rw [h7] at hcol
  simp only [Except.ok.injEq] at hcol
  exact hcol

theorem C8_witness :
    linksCellOk (MNode.containerCons
        (.link (.containerCons (.literal "ref".toList) .containerNil)
          "http://x".toList) .containerNil) = true ∧
    (Entry.mk (some (.date 2020 1 1)) false none false true
        (([] : List (List Char)).toFinset) (([] : List (List Char)).toFinset)
        .containerNil
        [⟨.containerCons (.literal "ref".toList) .containerNil,
          "http://x".toList⟩] false).links =
      collectLinks (MNode.containerCons
        (.link (.containerCons (.literal "ref".toList) .containerNil)
          "http://x".toList) .containerNil) :=
  C8_links_cell_policy.2 (litCell "2020-01-01".toList)
    (litCell "ongoing".toList) .containerNil .containerNil .containerNil
    (MNode.containerCons
      (.link (.containerCons (.literal "ref".toList) .containerNil)
        "http://x".toList) .containerNil)
    .containerNil _ (by rfl)

theorem tok_bridge (buf : List Char) (c : Char) (r : List Char)
    (h : c ≠ '\n') :
    tokRun .begin_table_cell buf (c :: r) = tokRun .table_cell buf (c :: r) := by
  conv_lhs => rw [tokRun.eq_def]
  conv_rhs => rw [tokRun.eq_def]
  simp [h]

theorem tok_plain_step (buf : List Char) (c : Char) (r : List Char)
    (h : isPlainChar c = true) :
    tokRun .table_cell buf (c :: r) = tokRun .table_cell (buf ++ [c]) r := by
  simp only [isPlainChar, Bool.not_eq_true', Bool.or_eq_false_iff,
    decide_eq_false_iff_not] at h
  obtain ⟨⟨⟨⟨⟨⟨⟨h1, h2⟩, h3⟩, h4⟩, h5⟩, h6⟩, h7⟩, h8⟩ := h
  conv_lhs => rw [tokRun.eq_def]
  simp [h1, h2, h3, h4, h5, h6, h7, h8]

theorem tok_plain_run (w : List Char) :
    ∀ (buf s : List Char), w.all isPlainChar = true →
      tokRun .table_cell buf (w ++ s) = tokRun .table_cell (buf ++ w) s := by
  induction w with
  | nil => intro buf s _; simp
  | cons c w' ih =>
    intro buf s h
    simp only [List.all_cons, Bool.and_eq_true] at h
    rw [List.cons_append, tok_plain_step buf c (w' ++ s) h.1,
      ih (buf ++ [c]) s h.2, List.append_assoc]
    rfl

theorem tok_escaped_punct (buf : List Char) (d : Char) (s : List Char)
    (h : punctChars.contains d = true) :
    tokRun .table_cell buf ('\\' :: d :: s) =
      tokRun .table_cell (buf ++ [d]) s := by
  have hd : d ≠ '\n' := by
    intro he
    subst he
    revert h
    decide
  have hm : d ∈ punctChars := by simpa using h
  conv_lhs => rw [tokRun.eq_def]
  simp [hd, hm]

theorem tok_escaped_run (chars : List Char) (w : List Char) :
    ∀ (buf s : List Char),
      (∀ c ∈ w, if c = '\\' ∨ chars.contains c = true
        then punctChars.contains c = true else isPlainChar c = true) →
      tokRun .table_cell buf (backslash_escape w chars ++ s) =
        tokRun .table_cell (buf ++ w) s := by
  induction w with
  | nil => intro buf s _; simp [backslash_escape]
  | cons c w' ih =>
    intro buf s h
    have hc := h c (List.mem_cons_self c w')
    have h' : ∀ c' ∈ w', if c' = '\\' ∨ chars.contains c' = true
        then punctChars.contains c' = true else isPlainChar c' = true :=
      fun c' hm => h c' (List.mem_cons_of_mem c hm)
    by_cases hesc : c = '\\' ∨ chars.contains c = true
    · rw [if_pos hesc] at hc
      have hcond : (c = '\\' || chars.contains c) = true := by
        rcases hesc with h1 | h1
        · simp [h1]
        · rw [h1]
          simp
      show tokRun .table_cell buf
        (((if c = '\\' || chars.contains c then ['\\', c] else [c]) ++
          backslash_escape w' chars) ++ s) = _
      rw [hcond]
      simp only [if_true, List.cons_append, List.nil_append, List.append_assoc]
      rw [tok_escaped_punct _ _ _ hc, ih _ _ h']
      simp
    · rw [if_neg hesc] at hc
      have hcond : (c = '\\' || chars.contains c) = false := by
        push_neg at hesc
        rcases hesc with ⟨h1, h2⟩
        simp only [Bool.or_eq_false_iff, decide_eq_false_iff_not]
        exact ⟨h1, by simpa using h2⟩
      show tokRun .table_cell buf
        (((if c = '\\' || chars.contains c then ['\\', c] else [c]) ++
          backslash_escape w' chars) ++ s) = _
      rw [hcond]
      simp only [Bool.false_eq_true, if_false, List.cons_append,
        List.nil_append, List.append_assoc]
      rw [tok_plain_step _ _ _ hc, ih _ _ h']
      simp

theorem escape_id (chars : List Char) (w : List Char)
    (h : ∀ c ∈ w, ¬(c = '\\' ∨ chars.contains c = true)) :
    backslash_escape w chars = w := by
  induction w with
  | nil => rfl
  | cons c w' ih =>
    have hc := h c (List.mem_cons_self c w')
    have hcond : (c = '\\' || chars.contains c) = false := by
      push_neg at hc
      simp only [Bool.or_eq_false_iff, decide_eq_false_iff_not]
      exact ⟨hc.1, by simpa using hc.2⟩
    show (if c = '\\' || chars.contains c then ['\\', c] else [c]) ++
      backslash_escape w' chars = c :: w'
    rw [hcond]
    simp only [Bool.false_eq_true, if_false, List.cons_append, List.nil_append]
    rw [ih (fun c' hm => h c' (List.mem_cons_of_mem c hm))]

theorem tok_btk_step (buf : List Char) (r : List Char) :
    tokRun .table_cell buf (btkChar :: r) =
      Except.map (fun ts => flushTok buf ++ ⟨.BACKTICK, [btkChar]⟩ :: ts)
        (tokRun .table_cell [] r) := by
  conv_lhs => rw [tokRun.eq_def]
  norm_num [show btkChar ≠ '\n' by decide, show btkChar ≠ '|' by decide,
    show btkChar ≠ '\\' by decide]

theorem tok_ob_step (buf : List Char) (r : List Char) :
    tokRun .table_cell buf ('[' :: r) =
      Except.map (fun ts => flushTok buf ++ ⟨.OPEN_BRACKET, ['[']⟩ :: ts)
        (tokRun .table_cell [] r) := by
  conv_lhs => rw [tokRun.eq_def]
  norm_num [show ('[' : Char) ≠ '\n' by decide, show ('[' : Char) ≠ '|' by decide,
    show ('[' : Char) ≠ '\\' by decide, show ('[' : Char) ≠ btkChar by decide]

theorem tok_cb_step (buf : List Char) (r : List Char) :
    tokRun .table_cell buf (']' :: r) =
      Except.map (fun ts => flushTok buf ++ ⟨.CLOSE_BRACKET, [']']⟩ :: ts)
        (tokRun .table_cell [] r) := by
  conv_lhs => rw [tokRun.eq_def]
  norm_num [show (']' : Char) ≠ '\n' by decide, show (']' : Char) ≠ '|' by decide,
    show (']' : Char) ≠ '\\' by decide, show (']' : Char) ≠ btkChar by decide,
    show (']' : Char) ≠ '[' by decide]

theorem tok_op_step (buf : List Char) (r : List Char) :
    tokRun .table_cell buf ('(' :: r) =
      Except.map (fun ts => flushTok buf ++ ⟨.OPEN_PAREN, ['(']⟩ :: ts)
        (tokRun .table_cell [] r) := by
  conv_lhs => rw [tokRun.eq_def]
  norm_num [show ('(' : Char) ≠ '\n' by decide, show ('(' : Char) ≠ '|' by decide,
    show ('(' : Char) ≠ '\\' by decide, show ('(' : Char) ≠ btkChar by decide,
    show ('(' : Char) ≠ '[' by decide, show ('(' : Char) ≠ ']' by decide]

theorem tok_cp_step (buf : List Char) (r : List Char) :
    tokRun .table_cell buf (')' :: r) =
      Except.map (fun ts => flushTok buf ++ ⟨.CLOSE_PAREN, [')']⟩ :: ts)
        (tokRun .table_cell [] r) := by
  conv_lhs => rw [tokRun.eq_def]
  norm_num [show (')' : Char) ≠ '\n' by decide, show (')' : Char) ≠ '|' by decide,
    show (')' : Char) ≠ '\\' by decide, show (')' : Char) ≠ btkChar by decide,
    show (')' : Char) ≠ '[' by decide, show (')' : Char) ≠ ']' by decide,
    show (')' : Char) ≠ '(' by decide]

theorem tok_pipe_step (buf : List Char) (r : List Char) :
    tokRun .table_cell buf ('|' :: r) =
      Except.map (fun ts => flushTok buf ++ ⟨.TABLE_CELL_END, ['|']⟩ :: ts)
        (tokRun .begin_table_cell [] r) := by
  conv_lhs => rw [tokRun.eq_def]
  norm_num [show ('|' : Char) ≠ '\n' by decide]

theorem plain_not_backslash {c : Char} (h : isPlainChar c = true) : c ≠ '\\' := by
  simp only [isPlainChar, Bool.not_eq_true', Bool.or_eq_false_iff,
    decide_eq_false_iff_not] at h
  exact h.1.1.1.1.1.2

theorem plain_not_btk {c : Char} (h : isPlainChar c = true) : c ≠ btkChar := by
  simp only [isPlainChar, Bool.not_eq_true', Bool.or_eq_false_iff,
    decide_eq_false_iff_not] at h
  exact h.1.1.1.1.2

theorem plain_not_ob {c : Char} (h : isPlainChar c = true) : c ≠ '[' := by
  simp only [isPlainChar, Bool.not_eq_true', Bool.or_eq_false_iff,
    decide_eq_false_iff_not] at h
  exact h.1.1.1.2

theorem plain_not_cb {c : Char} (h : isPlainChar c = true) : c ≠ ']' := by
  simp only [isPlainChar, Bool.not_eq_true', Bool.or_eq_false_iff,
    decide_eq_false_iff_not] at h
  exact h.1.1.2

theorem plain_not_op {c : Char} (h : isPlainChar c = true) : c ≠ '(' := by
  simp only [isPlainChar, Bool.not_eq_true', Bool.or_eq_false_iff,
    decide_eq_false_iff_not] at h
  exact h.1.2

theorem plain_not_cp {c : Char} (h : isPlainChar c = true) : c ≠ ')' := by
  simp only [isPlainChar, Bool.not_eq_true', Bool.or_eq_false_iff,
    decide_eq_false_iff_not] at h
  exact h.2

theorem plain_escape_id (w : List Char) (h : w.all isPlainChar = true) :
    backslash_escape w [] = w := by
  refine escape_id [] w ?_
  intro c hm
  rintro (h1 | h1)
  · exact plain_not_backslash (by simp only [List.all_eq_true] at h; exact h c hm) h1
  · simp [List.contains] at h1

theorem code_escape_chars (w : List Char) (h : goodCodeText w = true) :
    ∀ c ∈ w, if c = '\\' ∨ ([btkChar] : List Char).contains c = true
      then punctChars.contains c = true else isPlainChar c = true := by
  intro c hm
  simp only [goodCodeText, List.all_eq_true] at h
  have hc := h c hm
  simp only [Bool.or_eq_true, decide_eq_true_eq] at hc
  rcases hc with hc | hc
  · rw [if_neg]
    · exact hc
    rintro (h1 | h1)
    · exact plain_not_backslash hc h1
    · have h2 : c = btkChar := by simpa using h1
      exact plain_not_btk hc h2
  · subst hc
    rw [if_pos (Or.inr (by decide))]
    decide

theorem code_escape_id (w : List Char) (h : w.all isPlainChar = true) :
    backslash_escape w [btkChar] = w := by
  refine escape_id [btkChar] w ?_
  intro c hm
  have hc : isPlainChar c = true := by
    simp only [List.all_eq_true] at h
    exact h c hm
  rintro (h1 | h1)
  · exact plain_not_backslash hc h1
  · have h2 : c = btkChar := by simpa using h1
    exact plain_not_btk hc h2

theorem goodLabel_chars (l : MNode) :
    ∀ (flag : Bool), goodLabel flag l = true →
      ∀ c ∈ l.to_markdown, isPlainChar c = true ∨ c = btkChar := by
  induction l with
  | literal t => intro flag h; simp [goodLabel] at h
  | code t => intro flag h; simp [goodLabel] at h
  | link label href ih => intro flag h; simp [goodLabel] at h
  | containerNil => intro flag h c hc; simp [MNode.to_markdown] at hc
  | containerCons n rest ihn ihrest =>
    intro flag h c hc
    match n with
    | .literal w =>
      simp only [goodLabel, Bool.and_eq_true] at h
      obtain ⟨⟨hf, hw⟩, hrest⟩ := h
      simp only [plainLit, Bool.and_eq_true] at hw
      simp only [MNode.to_markdown, plain_escape_id w hw.2,
        List.mem_append] at hc
      rcases hc with hc | hc
      · exact Or.inl (by simp only [List.all_eq_true] at hw; exact hw.2 c hc)
      · exact ihrest true hrest c hc
    | .code w =>
      simp only [goodLabel, Bool.and_eq_true] at h
      obtain ⟨hw, hrest⟩ := h
      simp only [MNode.to_markdown, code_escape_id w hw, List.mem_append,
        List.mem_cons, List.mem_singleton] at hc
      have hc' : c ∈ w ∨ c = btkChar ∨ c ∈ MNode.to_markdown rest := by tauto
      rcases hc' with hc' | hc' | hc'
      · exact Or.inl (by simp only [List.all_eq_true] at hw; exact hw c hc')
      · exact Or.inr hc'
      · exact ihrest false hrest c hc'
    | .link a b => simp [goodLabel] at h
    | .containerNil => simp [goodLabel] at h
    | .containerCons a b => simp [goodLabel] at h

theorem goodLabel_goodCell (l : MNode) :
    ∀ (flag : Bool), goodLabel flag l = true → goodCell flag l = true := by
  induction l with
  | literal t => intro flag h; simp [goodLabel] at h
  | code t => intro flag h; simp [goodLabel] at h
  | link label href ih => intro flag h; simp [goodLabel] at h
  | containerNil => intro flag h; simp [goodCell]
  | containerCons n rest ihn ihrest =>
    intro flag h
    match n with
    | .literal w =>
      simp only [goodLabel, Bool.and_eq_true] at h
      simp only [goodCell, Bool.and_eq_true]
      exact ⟨h.1, ihrest true h.2⟩
    | .code w =>
      simp only [goodLabel, Bool.and_eq_true] at h
      simp only [goodCell, Bool.and_eq_true]
      refine ⟨?_, ihrest false h.2⟩
      simp only [goodCodeText, List.all_eq_true]
      intro c hm
      have := h.1
      simp only [List.all_eq_true] at this
      simp [this c hm]
    | .link a b => simp [goodLabel] at h
    | .containerNil => simp [goodLabel] at h
    | .containerCons a b => simp [goodLabel] at h

theorem label_md_escape_id (l : MNode) (flag : Bool)
    (h : goodLabel flag l = true) :
    backslash_escape l.to_markdown ['[', ']'] = l.to_markdown := by
  refine escape_id _ _ ?_
  intro c hm
  have hc := goodLabel_chars l flag h c hm
  rintro (h1 | h1)
  · rcases hc with hc | hc
    · exact plain_not_backslash hc h1
    · subst h1; revert hc; decide
  · have hmem : c = '[' ∨ c = ']' := by simpa using h1
    rcases hc with hc | hc
    · rcases hmem with hm1 | hm1
      · exact plain_not_ob hc hm1
      · exact plain_not_cb hc hm1
    · subst hc; revert hmem; decide

theorem href_escape_chars (h : List Char) (hh : goodHref h = true) :
    ∀ c ∈ h, if c = '\\' ∨ (['(', ')'] : List Char).contains c = true
      then punctChars.contains c = true else isPlainChar c = true := by
  intro c hm
  simp only [goodHref, List.all_eq_true] at hh
  have hc := hh c hm
  simp only [Bool.or_eq_true, decide_eq_true_eq] at hc
  rcases hc with ((hc | hc) | hc) | hc
  · rw [if_neg]
    · exact hc
    rintro (h1 | h1)
    · exact plain_not_backslash hc h1
    · have hmem : c = '(' ∨ c = ')' := by simpa using h1
      rcases hmem with hm1 | hm1
      · exact plain_not_op hc hm1
      · exact plain_not_cp hc hm1
  · subst hc; rw [if_pos (Or.inr (by decide))]; decide
  · subst hc; rw [if_pos (Or.inr (by decide))]; decide
  · subst hc; rw [if_pos (Or.inl rfl)]; decide

theorem tok_cell_md :
    ∀ (cs : MNode) (flag : Bool) (buf s : List Char),
      goodCell flag cs = true →
      tokRun .table_cell buf (cs.to_markdown ++ s) =
        Except.map (fun ts => emitToks buf cs ++ ts)
          (tokRun .table_cell (endBuf buf cs) s)
  | .containerNil, _, buf, s, _ => by
    simp only [MNode.to_markdown, List.nil_append, emitToks, endBuf]
    exact (except_map_nilfun _).symm
  | .literal _, _, _, _, h => by simp [goodCell] at h
  | .code _, _, _, _, h => by simp [goodCell] at h
  | .link _ _, _, _, _, h => by simp [goodCell] at h
  | .containerCons (.containerNil) _, _, _, _, h => by simp [goodCell] at h
  | .containerCons (.containerCons _ _) _, _, _, _, h => by simp [goodCell] at h
  | .containerCons (.literal w) rest, flag, buf, s, h => by
    simp only [goodCell, Bool.and_eq_true] at h
    obtain ⟨⟨hf, hw⟩, hrest⟩ := h
    simp only [plainLit, Bool.and_eq_true] at hw
    show tokRun .table_cell buf
      ((backslash_escape w [] ++ MNode.to_markdown rest) ++ s) = _
    rw [plain_escape_id w hw.2, List.append_assoc, tok_plain_run w buf _ hw.2,
      tok_cell_md rest true (buf ++ w) s hrest]
    rfl
  | .containerCons (.code w) rest, flag, buf, s, h => by
    simp only [goodCell, Bool.and_eq_true] at h
    obtain ⟨hw, hrest⟩ := h
    show tokRun .table_cell buf
      (((btkChar :: (backslash_escape w [btkChar] ++ [btkChar])) ++
        MNode.to_markdown rest) ++ s) = _
    have hshape : ((btkChar :: (backslash_escape w [btkChar] ++ [btkChar])) ++
        MNode.to_markdown rest) ++ s =
        btkChar :: (backslash_escape w [btkChar] ++
          (btkChar :: (MNode.to_markdown rest ++ s))) := by
      simp [List.append_assoc]
    rw [hshape, tok_btk_step,
      tok_escaped_run [btkChar] w [] _ (code_escape_chars w hw)]
    simp only [List.nil_append]
    rw [tok_btk_step, tok_cell_md rest false [] s hrest]
    simp only [except_map_map]
    show _ = Except.map (fun ts => emitToks buf
      (MNode.containerCons (.code w) rest) ++ ts)
        (tokRun .table_cell (endBuf [] rest) s)
    simp only [emitToks]
    congr 1
    funext ts
    simp [List.append_assoc]
  | .containerCons (.link label href) rest, flag, buf, s, h => by
    simp only [goodCell, Bool.and_eq_true] at h
    obtain ⟨⟨hlab, hhref⟩, hrest⟩ := h
    show tokRun .table_cell buf
      ((('[' :: (backslash_escape label.to_markdown ['[', ']'] ++
        (']' :: '(' :: (backslash_escape href ['(', ')'] ++ [')'])))) ++
        MNode.to_markdown rest) ++ s) = _
    rw [label_md_escape_id label false hlab]
    have hshape : (('[' :: (label.to_markdown ++
        (']' :: '(' :: (backslash_escape href ['(', ')'] ++ [')'])))) ++
        MNode.to_markdown rest) ++ s =
        '[' :: (label.to_markdown ++
          (']' :: '(' :: (backslash_escape href ['(', ')'] ++
            (')' :: (MNode.to_markdown rest ++ s))))) := by
      simp [List.append_assoc]
    rw [hshape, tok_ob_step,
      tok_cell_md label false [] _ (goodLabel_goodCell label false hlab),
      tok_cb_step, tok_op_step,
      tok_escaped_run ['(', ')'] href [] _ (href_escape_chars href hhref)]
    simp only [List.nil_append]
    rw [tok_cp_step, tok_cell_md rest false [] s hrest]
    simp only [except_map_map, flushTok]
    show _ = Except.map (fun ts => emitToks buf
      (MNode.containerCons (.link label href) rest) ++ ts)
        (tokRun .table_cell (endBuf [] rest) s)
    simp only [emitToks]
    congr 1
    funext ts
    simp [List.append_assoc, flushTok]
termination_by cs _ _ _ _ => sizeOf cs
decreasing_by all_goals (simp_wf; try omega)

theorem plain_not_nl {c : Char} (h : isPlainChar c = true) : c ≠ '\n' := by
  simp only [isPlainChar, Bool.not_eq_true', Bool.or_eq_false_iff,
    decide_eq_false_iff_not] at h
  exact h.1.1.1.1.1.1.1

theorem good_md_head (cs : MNode) (flag : Bool)
    (h : goodCell flag cs = true) (hne : cs ≠ .containerNil) :
    ∃ c r, cs.to_markdown = c :: r ∧ c ≠ '\n' := by
  match cs with
  | .containerNil => exact absurd rfl hne
  | .literal _ => simp [goodCell] at h
  | .code _ => simp [goodCell] at h
  | .link _ _ => simp [goodCell] at h
  | .containerCons .containerNil _ => simp [goodCell] at h
  | .containerCons (.containerCons _ _) _ => simp [goodCell] at h
  | .containerCons (.literal w) rest =>
    simp only [goodCell, Bool.and_eq_true] at h
    obtain ⟨⟨hf, hw⟩, hrest⟩ := h
    simp only [plainLit, Bool.and_eq_true] at hw
    match w, hw with
    | c :: w', hw =>
      refine ⟨c, w' ++ MNode.to_markdown rest, ?_, ?_⟩
      · show backslash_escape (c :: w') [] ++ MNode.to_markdown rest = _
        rw [plain_escape_id _ hw.2]
        simp
      · have hc : isPlainChar c = true := by
          have := hw.2
          simp only [List.all_cons, Bool.and_eq_true] at this
          exact this.1
        exact plain_not_nl hc
    | [], hw => simp at hw
  | .containerCons (.code w) rest =>
    exact ⟨btkChar, _, rfl, by decide⟩
  | .containerCons (.link label href) rest =>
    exact ⟨'[', _, rfl, by decide⟩

theorem tokenize_cell_md (cs : MNode) (h : goodCell false cs = true) :
    tokenize ('|' :: (cs.to_markdown ++ ['|', '\n'])) =
      .ok (⟨.TABLE_ROW_BEGIN, ['|']⟩ ::
        (emitToks [] cs ++ flushTok (endBuf [] cs) ++
          (⟨.TABLE_CELL_END, ['|']⟩ ::
            [⟨.TABLE_ROW_END, ['\n']⟩, ⟨.EOF, []⟩]))) := by
  by_cases hnil : cs = .containerNil
  · subst hnil
    rfl
  · obtain ⟨c, r, hmd, hc⟩ := good_md_head cs false h hnil
    show tokRun .begin_line [] ('|' :: (cs.to_markdown ++ ['|', '\n'])) = _
    rw [tokRun.eq_def]
    simp only [reduceIte]
    rw [hmd]
    show Except.map _ (tokRun .begin_table_cell []
      (c :: (r ++ ['|', '\n']))) = _
    rw [tok_bridge [] c _ hc]
    rw [show c :: (r ++ ['|', '\n']) = (c :: r) ++ ['|', '\n'] from rfl, ← hmd]
    rw [tok_cell_md cs false [] ['|', '\n'] h]
    rw [tok_pipe_step]
    rw [show tokRun .begin_table_cell ([] : List Char) ['\n'] =
      .ok [⟨.TABLE_ROW_END, ['\n']⟩, ⟨.EOF, []⟩] from rfl]
    simp [Except.map, flushTok, List.append_assoc]

theorem isChain_appendChild (acc : MNode) (x : MNode) :
    isChain acc = true → isChain (acc.appendChild x) = true := by
  induction acc with
  | containerNil => intro _; rfl
  | containerCons a r _ ihr => intro h; exact ihr (by simpa [isChain] using h)
  | literal t => intro h; simp [isChain] at h
  | code t => intro h; simp [isChain] at h
  | link a b _ => intro h; simp [isChain] at h

theorem chainAppend_nil (acc : MNode) (h : isChain acc = true) :
    chainAppend acc .containerNil = acc := by
  induction acc with
  | containerNil => rfl
  | containerCons a r _ ihr =>
    simp only [chainAppend]
    rw [ihr (by simpa [isChain] using h)]
  | literal t => simp [isChain] at h
  | code t => simp [isChain] at h
  | link a b _ => simp [isChain] at h

theorem chainAppend_appendChild (acc : MNode) (x t : MNode)
    (h : isChain acc = true) :
    chainAppend (acc.appendChild x) t =
      chainAppend acc (.containerCons x t) := by
  induction acc with
  | containerNil => rfl
  | containerCons a r _ ihr =>
    simp only [MNode.appendChild, chainAppend]
    rw [ihr (by simpa [isChain] using h)]
  | literal t' => simp [isChain] at h
  | code t' => simp [isChain] at h
  | link a b _ => simp [isChain] at h

theorem emit_decomp (t : MNode) (buf : List Char)
    (h : goodCell true t = true) :
    emitToks buf t ++ flushTok (endBuf buf t) =
      flushTok buf ++ (emitToks [] t ++ flushTok (endBuf [] t)) := by
  match t with
  | .containerNil => simp [emitToks, endBuf, flushTok]
  | .containerCons (.literal w) r => simp [goodCell] at h
  | .containerCons (.code v) r =>
    simp [emitToks, endBuf, flushTok, List.append_assoc]
  | .containerCons (.link a b) r =>
    simp [emitToks, endBuf, flushTok, List.append_assoc]
  | .containerCons .containerNil r => simp [goodCell] at h
  | .containerCons (.containerCons a b) r => simp [goodCell] at h
  | .literal w => simp [goodCell] at h
  | .code w => simp [goodCell] at h
  | .link a b => simp [goodCell] at h

theorem parse_code_flush (w : List Char) (rest : List Token) (acc : List Char) :
    parse_code (flushTok w ++ ⟨.BACKTICK, [btkChar]⟩ :: rest) acc =
      .ok (.code (acc ++ w), rest) := by
  by_cases hw : w = []
  · subst hw
    simp [flushTok, parse_code]
  · simp [flushTok, hw, parse_code]

theorem parse_href_flush (h : List Char) (rest : List Token) (acc : List Char) :
    parse_href (flushTok h ++ ⟨.CLOSE_PAREN, [')']⟩ :: rest) acc =
      .ok (acc ++ h, rest) := by
  by_cases hh : h = []
  · subst hh
    simp [flushTok, parse_href]
  · simp [flushTok, hh, parse_href]

theorem parse_link_label :
    ∀ (label : MNode) (flag : Bool) (f : Nat) (acc : MNode) (href : List Char)
      (rest : List Token),
      goodLabel flag label = true → isChain acc = true →
      nodeWeight label + 1 ≤ f →
      parse_link f acc
        ((emitToks [] label ++ flushTok (endBuf [] label)) ++
          (⟨.CLOSE_BRACKET, [']']⟩ :: ⟨.OPEN_PAREN, ['(']⟩ ::
            (flushTok href ++ ⟨.CLOSE_PAREN, [')']⟩ :: rest))) =
        .ok (.link (chainAppend acc label) href, rest)
  | .containerNil, flag, f, acc, href, rest, hg, hchain, hf => by
    match f, hf with
    | f' + 1, _ =>
      show parse_link (f' + 1) acc
        (⟨.CLOSE_BRACKET, [']']⟩ :: ⟨.OPEN_PAREN, ['(']⟩ ::
          (flushTok href ++ ⟨.CLOSE_PAREN, [')']⟩ :: rest)) = _
      simp only [parse_link, if_true]
      rw [parse_href_flush]
      simp [Bind.bind, Except.bind, chainAppend_nil acc hchain]
  | .containerCons (.literal w) rest', flag, f, acc, href, rest, hg, hchain,
      hf => by
    simp only [goodLabel, Bool.and_eq_true] at hg
    obtain ⟨⟨hfg, hw⟩, hrest⟩ := hg
    simp only [plainLit, Bool.and_eq_true] at hw
    have hd := emit_decomp rest' w (goodLabel_goodCell rest' true hrest)
    have hne : w ≠ [] := by simpa using hw.1
    have hnw : nodeWeight (MNode.containerCons (.literal w) rest') =
      1 + nodeWeight rest' := rfl
    match f, (by omega : nodeWeight rest' + 1 + 1 ≤ f) with
    | f' + 1, hf' =>
      show parse_link (f' + 1) acc
        ((emitToks w rest' ++ flushTok (endBuf w rest')) ++
          (⟨.CLOSE_BRACKET, [']']⟩ :: ⟨.OPEN_PAREN, ['(']⟩ ::
            (flushTok href ++ ⟨.CLOSE_PAREN, [')']⟩ :: rest))) = _
      rw [hd, show flushTok w = [⟨.LITERAL, w⟩] from by simp [flushTok, hne]]
      show parse_link (f' + 1) acc (⟨.LITERAL, w⟩ ::
        ((emitToks [] rest' ++ flushTok (endBuf [] rest')) ++
          (⟨.CLOSE_BRACKET, [']']⟩ :: ⟨.OPEN_PAREN, ['(']⟩ ::
            (flushTok href ++ ⟨.CLOSE_PAREN, [')']⟩ :: rest)))) = _
      have hstep : ∀ (Y : List Token), parse_link (f' + 1) acc
          (⟨.LITERAL, w⟩ :: Y) =
          parse_link f' (acc.appendChild (.literal w)) Y := by
        intro Y
        simp [parse_link]
      rw [hstep]
      rw [parse_link_label rest' true f' (acc.appendChild (.literal w)) href
        rest hrest (isChain_appendChild acc _ hchain) (by omega)]
      rw [chainAppend_appendChild acc _ _ hchain]
  | .containerCons (.code v) rest', flag, f, acc, href, rest, hg, hchain,
      hf => by
    simp only [goodLabel, Bool.and_eq_true] at hg
    obtain ⟨hv, hrest⟩ := hg
    have hnw : nodeWeight (MNode.containerCons (.code v) rest') =
      1 + nodeWeight rest' := rfl
    match f, (by omega : nodeWeight rest' + 1 + 1 ≤ f) with
    | f' + 1, hf' =>
      show parse_link (f' + 1) acc (⟨.BACKTICK, [btkChar]⟩ ::
        (((flushTok v ++ (⟨.BACKTICK, [btkChar]⟩ :: emitToks [] rest')) ++
          flushTok (endBuf [] rest')) ++
          (⟨.CLOSE_BRACKET, [']']⟩ :: ⟨.OPEN_PAREN, ['(']⟩ ::
            (flushTok href ++ ⟨.CLOSE_PAREN, [')']⟩ :: rest)))) = _
      have h1 : ((flushTok v ++ (⟨.BACKTICK, [btkChar]⟩ :: emitToks [] rest')) ++
          flushTok (endBuf [] rest')) ++
          (⟨.CLOSE_BRACKET, [']']⟩ :: ⟨.OPEN_PAREN, ['(']⟩ ::
            (flushTok href ++ ⟨.CLOSE_PAREN, [')']⟩ :: rest)) =
          flushTok v ++ (⟨.BACKTICK, [btkChar]⟩ ::
            ((emitToks [] rest' ++ flushTok (endBuf [] rest')) ++
              (⟨.CLOSE_BRACKET, [']']⟩ :: ⟨.OPEN_PAREN, ['(']⟩ ::
                (flushTok href ++ ⟨.CLOSE_PAREN, [')']⟩ :: rest)))) := by
        simp [List.append_assoc]
      rw [h1]
      have hstep : ∀ (Y : List Token), parse_link (f' + 1) acc
          (⟨.BACKTICK, [btkChar]⟩ :: (flushTok v ++
            (⟨.BACKTICK, [btkChar]⟩ :: Y))) =
          parse_link f' (acc.appendChild (.code v)) Y := by
        intro Y
        simp [parse_link, parse_code_flush, Bind.bind, Except.bind]
      rw [hstep]
      rw [parse_link_label rest' false f' (acc.appendChild (.code v)) href
        rest hrest (isChain_appendChild acc _ hchain) (by omega)]
      rw [chainAppend_appendChild acc _ _ hchain]
  | .literal _, flag, f, acc, href, rest, hg, _, _ => by
    simp [goodLabel] at hg
  | .code _, flag, f, acc, href, rest, hg, _, _ => by
    simp [goodLabel] at hg
  | .link _ _, flag, f, acc, href, rest, hg, _, _ => by
    simp [goodLabel] at hg
  | .containerCons (.link _ _) _, flag, f, acc, href, rest, hg, _, _ => by
    simp [goodLabel] at hg
  | .containerCons .containerNil _, flag, f, acc, href, rest, hg, _, _ => by
    simp [goodLabel] at hg
  | .containerCons (.containerCons _ _) _, flag, f, acc, href, rest, hg, _,
      _ => by
    simp [goodLabel] at hg
termination_by label _ _ _ _ _ _ _ _ => sizeOf label
decreasing_by all_goals (simp_wf; try omega)

theorem parse_cell_md :
    ∀ (cs : MNode) (flag : Bool) (f : Nat) (rest : List Token),
      goodCell flag cs = true →
      nodeWeight cs + 1 ≤ f →
      parse_table_cell f
        ((emitToks [] cs ++ flushTok (endBuf [] cs)) ++
          (⟨.TABLE_CELL_END, ['|']⟩ :: rest)) =
        .ok (cs, rest)
  | .containerNil, flag, f, rest, hg, hf => by
    match f, hf with
    | f' + 1, _ =>
      show parse_table_cell (f' + 1)
        (⟨.TABLE_CELL_END, ['|']⟩ :: rest) = _
      simp [parse_table_cell]
  | .containerCons (.literal w) rest', flag, f, rest, hg, hf => by
    simp only [goodCell, Bool.and_eq_true] at hg
    obtain ⟨⟨hfg, hw⟩, hrest⟩ := hg
    simp only [plainLit, Bool.and_eq_true] at hw
    have hd := emit_decomp rest' w hrest
    have hne : w ≠ [] := by simpa using hw.1
    have hnw : nodeWeight (MNode.containerCons (.literal w) rest') =
      1 + nodeWeight rest' := rfl
    match f, (by omega : nodeWeight rest' + 1 + 1 ≤ f) with
    | f' + 1, hf' =>
      show parse_table_cell (f' + 1)
        ((emitToks w rest' ++ flushTok (endBuf w rest')) ++
          (⟨.TABLE_CELL_END, ['|']⟩ :: rest)) = _
      rw [hd, show flushTok w = [⟨.LITERAL, w⟩] from by simp [flushTok, hne]]
      show parse_table_cell (f' + 1) (⟨.LITERAL, w⟩ ::
        ((emitToks [] rest' ++ flushTok (endBuf [] rest')) ++
          (⟨.TABLE_CELL_END, ['|']⟩ :: rest))) = _
      have hstep : ∀ (Y : List Token), parse_table_cell (f' + 1)
          (⟨.LITERAL, w⟩ :: Y) =
          Except.map (fun p => (MNode.containerCons (.literal w) p.1, p.2))
            (parse_table_cell f' Y) := by
        intro Y
        simp only [parse_table_cell]
        cases parse_table_cell f' Y <;> simp [Bind.bind, Except.bind, Except.map]
      rw [hstep, parse_cell_md rest' true f' rest hrest (by omega)]
      rfl
  | .containerCons (.code v) rest', flag, f, rest, hg, hf => by
    simp only [goodCell, Bool.and_eq_true] at hg
    obtain ⟨hv, hrest⟩ := hg
    have hnw : nodeWeight (MNode.containerCons (.code v) rest') =
      1 + nodeWeight rest' := rfl
    match f, (by omega : nodeWeight rest' + 1 + 1 ≤ f) with
    | f' + 1, hf' =>
      show parse_table_cell (f' + 1) (⟨.BACKTICK, [btkChar]⟩ ::
        (((flushTok v ++ (⟨.BACKTICK, [btkChar]⟩ :: emitToks [] rest')) ++
          flushTok (endBuf [] rest')) ++
          (⟨.TABLE_CELL_END, ['|']⟩ :: rest))) = _
      have h1 : ((flushTok v ++ (⟨.BACKTICK, [btkChar]⟩ :: emitToks [] rest')) ++
          flushTok (endBuf [] rest')) ++ (⟨.TABLE_CELL_END, ['|']⟩ :: rest) =
          flushTok v ++ (⟨.BACKTICK, [btkChar]⟩ ::
            ((emitToks [] rest' ++ flushTok (endBuf [] rest')) ++
              (⟨.TABLE_CELL_END, ['|']⟩ :: rest))) := by
        simp [List.append_assoc]
      rw [h1]
      have hstep : ∀ (Y : List Token), parse_table_cell (f' + 1)
          (⟨.BACKTICK, [btkChar]⟩ :: (flushTok v ++
            (⟨.BACKTICK, [btkChar]⟩ :: Y))) =
          Except.map (fun p => (MNode.containerCons (.code v) p.1, p.2))
            (parse_table_cell f' Y) := by
        intro Y
        simp only [parse_table_cell, parse_code_flush, Bind.bind, Except.bind,
          List.nil_append]
        cases parse_table_cell f' Y <;> simp [Except.map]
      rw [hstep, parse_cell_md rest' false f' rest hrest (by omega)]
      rfl
  | .containerCons (.link label href) rest', flag, f, rest, hg, hf => by
    simp only [goodCell, Bool.and_eq_true] at hg
    obtain ⟨⟨hlab, hhref⟩, hrest⟩ := hg
    have hnw : nodeWeight (MNode.containerCons (.link label href) rest') =
      1 + nodeWeight label + nodeWeight rest' := rfl
    match f, (by omega : nodeWeight rest' + 1 + 1 ≤ f) with
    | f' + 1, hf' =>
      show parse_table_cell (f' + 1) (⟨.OPEN_BRACKET, ['[']⟩ ::
        ((((emitToks [] label ++ flushTok (endBuf [] label)) ++
          (⟨.CLOSE_BRACKET, [']']⟩ :: ⟨.OPEN_PAREN, ['(']⟩ ::
            (flushTok href ++ ⟨.CLOSE_PAREN, [')']⟩ :: emitToks [] rest'))) ++
          flushTok (endBuf [] rest')) ++
          (⟨.TABLE_CELL_END, ['|']⟩ :: rest))) = _
      have h1 : (((emitToks [] label ++ flushTok (endBuf [] label)) ++
          (⟨.CLOSE_BRACKET, [']']⟩ :: ⟨.OPEN_PAREN, ['(']⟩ ::
            (flushTok href ++ ⟨.CLOSE_PAREN, [')']⟩ :: emitToks [] rest'))) ++
          flushTok (endBuf [] rest')) ++ (⟨.TABLE_CELL_END, ['|']⟩ :: rest) =
          (emitToks [] label ++ flushTok (endBuf [] label)) ++
            (⟨.CLOSE_BRACKET, [']']⟩ :: ⟨.OPEN_PAREN, ['(']⟩ ::
              (flushTok href ++ ⟨.CLOSE_PAREN, [')']⟩ ::
                ((emitToks [] rest' ++ flushTok (endBuf [] rest')) ++
                  (⟨.TABLE_CELL_END, ['|']⟩ :: rest)))) := by
        simp [List.append_assoc]
      rw [h1]
      have hstep : ∀ (Y : List Token) (nd : MNode)
          (hY : parse_link (f' + 1) .containerNil Y = .ok (nd,
            (emitToks [] rest' ++ flushTok (endBuf [] rest')) ++
              (⟨.TABLE_CELL_END, ['|']⟩ :: rest))),
          parse_table_cell (f' + 1) (⟨.OPEN_BRACKET, ['[']⟩ :: Y) =
          Except.map (fun p => (MNode.containerCons nd p.1, p.2))
            (parse_table_cell f'
              ((emitToks [] rest' ++ flushTok (endBuf [] rest')) ++
                (⟨.TABLE_CELL_END, ['|']⟩ :: rest))) := by
        intro Y nd hY
        simp only [parse_table_cell, hY, Bind.bind, Except.bind]
        cases parse_table_cell f' ((emitToks [] rest' ++
          flushTok (endBuf [] rest')) ++ (⟨.TABLE_CELL_END, ['|']⟩ :: rest)) <;>
          simp [Except.map]
      rw [hstep _ (.link (chainAppend .containerNil label) href)
        (parse_link_label label false (f' + 1) .containerNil href _ hlab rfl
          (by omega))]
      rw [parse_cell_md rest' false f' rest hrest (by omega)]
      show Except.ok (MNode.containerCons
        (.link (chainAppend .containerNil label) href) rest', rest) = _
      rw [show chainAppend .containerNil label = label from rfl]
  | .literal _, flag, f, rest, hg, _ => by simp [goodCell] at hg
  | .code _, flag, f, rest, hg, _ => by simp [goodCell] at hg
  | .link _ _, flag, f, rest, hg, _ => by simp [goodCell] at hg
  | .containerCons .containerNil _, flag, f, rest, hg, _ => by
    simp [goodCell] at hg
  | .containerCons (.containerCons _ _) _, flag, f, rest, hg, _ => by
    simp [goodCell] at hg
termination_by cs _ _ _ _ _ => sizeOf cs
decreasing_by all_goals (simp_wf; try omega)

theorem nodeWeight_le :
    ∀ (cs : MNode) (flag : Bool), goodCell flag cs = true →
      nodeWeight cs ≤ (emitToks [] cs).length + (flushTok (endBuf [] cs)).length
  | .containerNil, _, _ => by simp [nodeWeight]
  | .containerCons (.literal w) rest', flag, hg => by
    simp only [goodCell, Bool.and_eq_true] at hg
    obtain ⟨⟨hfg, hw⟩, hrest⟩ := hg
    have hne : w ≠ [] := by
      simp only [plainLit, Bool.and_eq_true] at hw
      simpa using hw.1
    have hd := congrArg List.length (emit_decomp rest' w hrest)
    simp only [List.length_append] at hd
    have ih := nodeWeight_le rest' true hrest
    show 1 + nodeWeight rest' ≤
      (emitToks w rest').length + (flushTok (endBuf w rest')).length
    have hfw : (flushTok w).length = 1 := by simp [flushTok, hne]
    omega
  | .containerCons (.code v) rest', flag, hg => by
    simp only [goodCell, Bool.and_eq_true] at hg
    obtain ⟨hv, hrest⟩ := hg
    have ih := nodeWeight_le rest' false hrest
    show 1 + nodeWeight rest' ≤
      ((flushTok [] ++ ⟨.BACKTICK, [btkChar]⟩ ::
        (flushTok v ++ ⟨.BACKTICK, [btkChar]⟩ :: emitToks [] rest')).length +
       (flushTok (endBuf [] rest')).length)
    simp only [List.length_append, List.length_cons]
    omega
  | .containerCons (.link label href) rest', flag, hg => by
    simp only [goodCell, Bool.and_eq_true] at hg
    obtain ⟨⟨hlab, hhref⟩, hrest⟩ := hg
    have ihl := nodeWeight_le label false (goodLabel_goodCell label false hlab)
    have ih := nodeWeight_le rest' false hrest
    show 1 + nodeWeight label + nodeWeight rest' ≤
      ((flushTok [] ++ ⟨.OPEN_BRACKET, ['[']⟩ ::
        ((emitToks [] label ++ flushTok (endBuf [] label)) ++
          ⟨.CLOSE_BRACKET, [']']⟩ :: ⟨.OPEN_PAREN, ['(']⟩ ::
            (flushTok href ++ ⟨.CLOSE_PAREN, [')']⟩ ::
              emitToks [] rest'))).length +
       (flushTok (endBuf [] rest')).length)
    simp only [List.length_append, List.length_cons]
    omega
  | .literal _, _, hg => by simp [goodCell] at hg
  | .code _, _, hg => by simp [goodCell] at hg
  | .link _ _, _, hg => by simp [goodCell] at hg
  | .containerCons .containerNil _, _, hg => by simp [goodCell] at hg
  | .containerCons (.containerCons _ _) _, _, hg => by simp [goodCell] at hg
termination_by cs _ _ => sizeOf cs
decreasing_by all_goals (simp_wf; try omega)

/-- Claim C1 (amended): round-tripping holds on the benign fragment class:
for every cell tree whose literals are nonempty runs of ordinary characters
(no backslash, backtick, bracket, paren, pipe or newline) with no two
literals adjacent, whose code spans contain only ordinary characters and
backticks, and whose links have labels of the same shape (labels' code
spans all-ordinary) and hrefs of ordinary characters, parens and
backslashes, serializing with `to_markdown` and re-parsing the text as a
table cell returns exactly the same tree.  Outside this class the
round-trip can fail (see `C1_counterexample`): a Literal is escaped only
for backslash, NOT for backtick, bracket, paren or pipe. -/
theorem C1_round_trip_good_trees (cs : MNode) (h : goodCell false cs = true) :
    parseCellText cs.to_markdown = .ok cs := by
  unfold parseCellText
  rw [tokenize_cell_md cs h]
  simp only [Bind.bind, Except.bind, if_true]
  have hlen := nodeWeight_le cs false h
  rw [parse_cell_md cs false _ [⟨.TABLE_ROW_END, ['\n']⟩, ⟨.EOF, []⟩] h
    (by simp only [List.length_append, List.length_cons]; omega)]

/-- Claim C1 (counterexample): the tree `[Literal "\x60"]` IS produced by
parsing the table cell `\` + backtick (a backslash-escaped backtick), its
`to_markdown` serialization is the bare backtick (literals are escaped
only for backslash), and re-parsing that text as a cell is a fatal error
(the lone backtick opens an unterminated code span), not an equivalent
tree. -/
theorem C1_counterexample :
    parseCellText ['\\', btkChar] =
      .ok (.containerCons (.literal [btkChar]) .containerNil) ∧
    (MNode.containerCons (.literal [btkChar]) .containerNil).to_markdown =
      [btkChar] ∧
    parseCellText [btkChar] = .error .unexpectedTokenInCode :=
  ⟨rfl, rfl, rfl⟩

theorem C1_witness :
    parseCellText "a[ref](http://x)".toList =
      .ok (.containerCons (.literal "a".toList)
        (.containerCons (.link (.containerCons (.literal "ref".toList)
          .containerNil) "http://x".toList) .containerNil)) := by
  have h := C1_round_trip_good_trees
    (.containerCons (.literal "a".toList)
      (.containerCons (.link (.containerCons (.literal "ref".toList)
        .containerNil) "http://x".toList) .containerNil)) (by decide)
  exact h
